import Mathlib

/-!
Verification of the EasyAuth-Mvp OCR credential-extraction core
(`backend/ocr_service.py`) against its natural-language specification.

The Python code is shallowly embedded: the subset of Python `re` used by
the source is modelled by a small backtracking regex engine over
`List Char` (leftmost search, first-success backtracking order, one
capture group, IGNORECASE / MULTILINE flags), and each source function
(`_parse_credentials`, `_clean_extracted_value`, `_post_process_fields`,
`_extract_from_pdf`, `_extract_from_pdf_fallback`, `_preprocess_image`)
becomes a Lean definition over that engine.  Character semantics are the
ASCII fragment (Python's `str.lower`, `\w`, `\s` restricted to ASCII).
Confidence floats are modelled as exact rationals.
-/

set_option maxRecDepth 8192

namespace EasyAuth

/-! ### Regex engine: the Python `re` subset used by `ocr_service.py` -/

/-- Character-class item: a literal, a range, or a class escape
(`\d`, `\w`, `\s`). -/
inductive CItem where
  | single (c : Char)
  | range (lo hi : Char)
  | sdigit
  | sword
  | sspace
deriving Repr, DecidableEq

/-- Regex abstract syntax.  `cls neg items` is a character class
(negated when `neg`); `star lz a` is `a*` (lazy when `lz`); `group`
is capture group 1; `bol`/`eol` are `^`/`$`. -/
inductive RE where
  | eps
  | cls (neg : Bool) (items : List CItem)
  | seq (a b : RE)
  | alt (a b : RE)
  | star (lz : Bool) (a : RE)
  | group (a : RE)
  | bol
  | eol
deriving Repr, DecidableEq

/-- Matching flags: `ci` = re.IGNORECASE, `ml` = re.MULTILINE. -/
structure Flags where
  ci : Bool
  ml : Bool
deriving Repr, DecidableEq

/-- Python `\s` over ASCII: space, tab, newline, carriage return,
vertical tab, form feed. -/
def isSpaceChar (c : Char) : Bool :=
  c = ' ' || c = '\t' || c = '\n' || c = '\r' || c = '\x0b' || c = '\x0c'

/-- Python `\w` over ASCII: letters, digits, underscore. -/
def isWordChar (c : Char) : Bool := c.isAlphanum || c = '_'

def itemMatch (c : Char) : CItem → Bool
  | .single d => c = d
  | .range lo hi => lo ≤ c && c ≤ hi
  | .sdigit => c.isDigit
  | .sword => isWordChar c
  | .sspace => isSpaceChar c

/-- Swap the ASCII case of a character (used for IGNORECASE matching). -/
def swapCase (c : Char) : Char :=
  if 'a' ≤ c && c ≤ 'z' then c.toUpper
  else if 'A' ≤ c && c ≤ 'Z' then c.toLower
  else c

/-- Class membership under flags: with IGNORECASE a character matches if
either it or its case-swapped form is in the class. -/
def clsMatch (fl : Flags) (neg : Bool) (items : List CItem) (c : Char) : Bool :=
  let b := items.any (itemMatch c) || (fl.ci && items.any (itemMatch (swapCase c)))
  if neg then !b else b

/-- Matcher state: remaining input, absolute position, previous
character (for `^` under MULTILINE), and capture-group-1 span. -/
structure MSt where
  rem : List Char
  pos : Nat
  prev : Option Char
  g1 : Option (Nat × Nat)
deriving Repr, DecidableEq

/-- Continuation-stack item: a regex still to match, or the closing
bookkeeping of the capture group opened at `start`. -/
inductive KItem where
  | re (r : RE)
  | closeG (start : Nat)
deriving Repr, DecidableEq

/-- Backtracking matcher.  Returns the list of all ways to match the
continuation stack from state `st`, in Python's backtracking preference
order (so the head is the match Python's engine commits to).  `fuel`
bounds recursion depth; it only needs to exceed the depth of one
backtracking path and is supplied generously by `fuelFor`. -/
def run (fl : Flags) : Nat → List KItem → MSt → List MSt
  | 0, _, _ => []
  | _ + 1, [], st => [st]
  | f + 1, .closeG s :: k, st => run fl f k { st with g1 := some (s, st.pos) }
  | f + 1, .re r :: k, st =>
    match r with
    | .eps => run fl f k st
    | .cls neg items =>
      match st.rem with
      | [] => []
      | c :: rest =>
        if clsMatch fl neg items c then
          run fl f k ⟨rest, st.pos + 1, some c, st.g1⟩
        else []
    | .seq a b => run fl f (.re a :: .re b :: k) st
    | .alt a b => run fl f (.re a :: k) st ++ run fl f (.re b :: k) st
    | .star lz a =>
      let stop := run fl f k st
      let go := (run fl f [.re a] st).flatMap fun st2 =>
        if st.pos < st2.pos then run fl f (.re (.star lz a) :: k) st2
        else run fl f k st2
      if lz then stop ++ go else go ++ stop
    | .group a => run fl f (.re a :: .closeG st.pos :: k) st
    | .bol =>
      if st.pos == 0 || (fl.ml && st.prev == some '\n') then run fl f k st else []
    | .eol =>
      match st.rem with
      | [] => run fl f k st
      | c :: rest =>
        if (fl.ml && c == '\n') || (!fl.ml && c == '\n' && rest.isEmpty) then
          run fl f k st
        else []

/-- Structural size of a regex (number of constructors). -/
def reSize : RE → Nat
  | .eps => 1
  | .cls _ _ => 1
  | .seq a b => 1 + reSize a + reSize b
  | .alt a b => 1 + reSize a + reSize b
  | .star _ a => 1 + reSize a
  | .group a => 1 + reSize a
  | .bol => 1
  | .eol => 1

/-- Generous fuel: far exceeds the recursion depth of any single
backtracking path of `run` for regex `r` over input `s`. -/
def fuelFor (s : List Char) (r : RE) : Nat :=
  32 * (reSize r + 2) * (s.length + 2)

/-- Result of a successful search: absolute match span and group-1 span. -/
structure MRes where
  start : Nat
  stop : Nat
  g1 : Option (Nat × Nat)
deriving Repr, DecidableEq

/-- Python `re.search` scanning loop: try to match at the current
position, else advance one character.  Models leftmost-match search.
The first `Nat` argument bounds the number of positions still to try
(one more than the remaining input length suffices). -/
def searchLoop (fl : Flags) (r : RE) (fuel : Nat) : Nat → MSt → Option MRes
  | 0, _ => none
  | n + 1, st =>
    match run fl fuel [.re r] st with
    | res :: _ => some ⟨st.pos, res.pos, res.g1⟩
    | [] =>
      match st.rem with
      | [] => none
      | c :: rest => searchLoop fl r fuel n ⟨rest, st.pos + 1, some c, none⟩

/-- Python `re.search(pattern, s)`. -/
def reSearch (fl : Flags) (r : RE) (s : List Char) : Option MRes :=
  searchLoop fl r (fuelFor s r) (s.length + 1) ⟨s, 0, none, none⟩

/-- Python `re.match(pattern, s)`: anchored at position 0 only. -/
def reMatchAt0 (fl : Flags) (r : RE) (s : List Char) : Option MRes :=
  match run fl (fuelFor s r) [.re r] ⟨s, 0, none, none⟩ with
  | res :: _ => some ⟨0, res.pos, res.g1⟩
  | [] => none

/-- The substring of `s` from absolute position `a` to `b`. -/
def extractSpan (s : List Char) (a b : Nat) : List Char :=
  (s.drop a).take (b - a)

/-- Python `str.strip()`: drop leading and trailing whitespace. -/
def stripL (l : List Char) : List Char :=
  ((l.dropWhile fun c => isSpaceChar c).reverse.dropWhile fun c => isSpaceChar c).reverse

/-- Worker for `reSub`: repeatedly search in the remaining suffix
(`prev`/`pos` keep absolute context for anchors) and replace. -/
def reSubAux (fl : Flags) (r : RE) (rep : List Char) :
    Nat → List Char → Option Char → Nat → List Char
  | 0, rem, _, _ => rem
  | f + 1, rem, prev, pos =>
    match searchLoop fl r (fuelFor rem r) (rem.length + 1) ⟨rem, pos, prev, none⟩ with
    | none => rem
    | some res =>
      let a := res.start - pos
      let b := res.stop - pos
      if b ≤ a then
        match rem.drop a with
        | [] => rem.take a ++ rep
        | c :: rest => rem.take a ++ rep ++ [c] ++ reSubAux fl r rep f rest (some c) (res.stop + 1)
      else
        rem.take a ++ rep ++
          reSubAux fl r rep f (rem.drop b)
            (match (extractSpan rem a b).reverse with
             | [] => prev
             | c :: _ => some c) res.stop

/-- Python `re.sub(pattern, rep, s)`: replace all non-overlapping
leftmost matches. -/
def reSub (fl : Flags) (r : RE) (rep s : List Char) : List Char :=
  reSubAux fl r rep (s.length + 1) s none 0

/-! ### Pattern-building helpers (translation of regex literals) -/

/-- A literal character. -/
def rchar (c : Char) : RE := .cls false [.single c]

/-- A literal string (sequence of literal characters). -/
def rlit (s : String) : RE := (s.data.map rchar).foldr .seq .eps

/-- Sequencing of a list of regexes. -/
def rcat (rs : List RE) : RE := rs.foldr .seq .eps

/-- Left-to-right alternation of a list of regexes (Python `a|b|c`). -/
def raltL : List RE → RE
  | [] => .eps
  | [x] => x
  | x :: xs => .alt x (raltL xs)

/-- Greedy `r*`. -/
def rstar (r : RE) : RE := .star false r

/-- Greedy `r+`. -/
def rplus (r : RE) : RE := .seq r (.star false r)

/-- Greedy `r?`. -/
def ropt (r : RE) : RE := .alt r .eps

/-- Exactly `n` copies of `r`. -/
def rrep : Nat → RE → RE
  | 0, _ => .eps
  | n + 1, r => .seq r (rrep n r)

/-- Greedy at most `n` copies of `r` (Python `r` followed by a bounded
quantifier upper part). -/
def rupto : Nat → RE → RE
  | 0, _ => .eps
  | n + 1, r => .alt (.seq r (rupto n r)) .eps

/-! ### Character classes used by the source patterns -/

/-- Python `[\s\:]`. -/
def clsWsColon : RE := .cls false [.sspace, .single ':']
/-- Python `[a-zA-Z\s\.]`. -/
def clsNameChar : RE := .cls false [.range 'a' 'z', .range 'A' 'Z', .sspace, .single '.']
/-- Python `[a-zA-Z0-9\/\-]`. -/
def clsRollChar : RE :=
  .cls false [.range 'a' 'z', .range 'A' 'Z', .range '0' '9', .single '/', .single '-']
/-- Python `[a-zA-Z\s\&\(\)]`. -/
def clsDegChar : RE :=
  .cls false [.range 'a' 'z', .range 'A' 'Z', .sspace, .single '&', .single '(', .single ')']
/-- Python `[0-9]`. -/
def clsDigit : RE := .cls false [.range '0' '9']
/-- Python `[a-zA-Z0-9\.\s]`. -/
def clsGradeChar : RE :=
  .cls false [.range 'a' 'z', .range 'A' 'Z', .range '0' '9', .single '.', .sspace]
/-- Python `[a-zA-Z\s\,\&\(\)]`. -/
def clsInstChar : RE :=
  .cls false [.range 'a' 'z', .range 'A' 'Z', .sspace, .single ',', .single '&', .single '(', .single ')']
/-- Python `[^0-9\n]`. -/
def clsNonDigNl : RE := .cls true [.range '0' '9', .single '\n']
/-- Python `[^,\n]`. -/
def clsNonCommaNl : RE := .cls true [.single ',', .single '\n']
/-- Python `.` (any char except newline, no DOTALL). -/
def rdot : RE := .cls true [.single '\n']
/-- Python `\s`. -/
def rws : RE := .cls false [.sspace]
/-- Python `\d`. -/
def rwd : RE := .cls false [.sdigit]
/-- Python `[a-zA-Z]`. -/
def clsAlpha : RE := .cls false [.range 'a' 'z', .range 'A' 'Z']

/-! ### The field patterns of `OCRService.__init__` -/

/-- Python pattern `(?:name|candidate|student)[\s\:]*([a-zA-Z\s\.]+)`. -/
def namePat1 : RE :=
  rcat [raltL [rlit "name", rlit "candidate", rlit "student"],
        rstar clsWsColon, .group (rplus clsNameChar)]

/-- Python pattern `this\s+is\s+to\s+certify\s+that\s+([a-zA-Z\s\.]+)`. -/
def namePat2 : RE :=
  rcat [rlit "this", rplus rws, rlit "is", rplus rws, rlit "to", rplus rws,
        rlit "certify", rplus rws, rlit "that", rplus rws, .group (rplus clsNameChar)]

/-- Python pattern `mr\.|ms\.|miss\s+([a-zA-Z\s\.]+)`.  Note the
alternation binds loosely: only the `miss` branch contains the group. -/
def namePat3 : RE :=
  raltL [rlit "mr.", rlit "ms.",
         rcat [rlit "miss", rplus rws, .group (rplus clsNameChar)]]

/-- Python pattern `(?:roll|registration|student|id)[\s\:]*no[\s\:]*([a-zA-Z0-9\/\-]+)`. -/
def rollPat1 : RE :=
  rcat [raltL [rlit "roll", rlit "registration", rlit "student", rlit "id"],
        rstar clsWsColon, rlit "no", rstar clsWsColon, .group (rplus clsRollChar)]

/-- Python pattern `roll[\s\:]*([a-zA-Z0-9\/\-]+)`. -/
def rollPat2 : RE := rcat [rlit "roll", rstar clsWsColon, .group (rplus clsRollChar)]

/-- Python pattern `reg[\s\:]*no[\s\:]*([a-zA-Z0-9\/\-]+)`. -/
def rollPat3 : RE :=
  rcat [rlit "reg", rstar clsWsColon, rlit "no", rstar clsWsColon, .group (rplus clsRollChar)]

/-- Python pattern
`(?:bachelor|master|diploma|certificate|degree)[\s\:]*(?:of|in|programme)*\s*([a-zA-Z\s\&\(\)]+)`. -/
def degPat1 : RE :=
  rcat [raltL [rlit "bachelor", rlit "master", rlit "diploma", rlit "certificate", rlit "degree"],
        rstar clsWsColon, rstar (raltL [rlit "of", rlit "in", rlit "programme"]),
        rstar rws, .group (rplus clsDegChar)]

/-- Python pattern
`(?:b\.?[a-zA-Z]*|m\.?[a-zA-Z]*|phd|ph\.d)[\s\:]*(?:in)*\s*([a-zA-Z\s\&\(\)]*)`. -/
def degPat2 : RE :=
  rcat [raltL [rcat [rchar 'b', ropt (rchar '.'), rstar clsAlpha],
               rcat [rchar 'm', ropt (rchar '.'), rstar clsAlpha],
               rlit "phd", rlit "ph.d"],
        rstar clsWsColon, rstar (rlit "in"), rstar rws, .group (rstar clsDegChar)]

/-- Python pattern `(?:course|program|programme)[\s\:]*([a-zA-Z\s\&\(\)]+)`. -/
def degPat3 : RE :=
  rcat [raltL [rlit "course", rlit "program", rlit "programme"],
        rstar clsWsColon, .group (rplus clsDegChar)]

/-- Python pattern `(?:year|session|batch)[\s\:]*([0-9]{4})`. -/
def yearPat1 : RE :=
  rcat [raltL [rlit "year", rlit "session", rlit "batch"],
        rstar clsWsColon, .group (rrep 4 clsDigit)]

/-- Python pattern `(?:passed|completed)[\s\:]*(?:in)*\s*([0-9]{4})`. -/
def yearPat2 : RE :=
  rcat [raltL [rlit "passed", rlit "completed"],
        rstar clsWsColon, rstar (rlit "in"), rstar rws, .group (rrep 4 clsDigit)]

/-- Python pattern `([0-9]{4})(?:\s*batch|\s*session)`. -/
def yearPat3 : RE :=
  rcat [.group (rrep 4 clsDigit),
        raltL [rcat [rstar rws, rlit "batch"], rcat [rstar rws, rlit "session"]]]

/-- Python pattern `(?:dated|date)[\s\:]*.{0,20}([0-9]{4})`. -/
def yearPat4 : RE :=
  rcat [raltL [rlit "dated", rlit "date"],
        rstar clsWsColon, rupto 20 rdot, .group (rrep 4 clsDigit)]

/-- The alternation `(?:university|college|institute|school)`. -/
def instWords : RE := raltL [rlit "university", rlit "college", rlit "institute", rlit "school"]

/-- Python pattern
`(?:university|college|institute|school)[\s\:]*(.*?)(?:university|college|institute|school)`. -/
def instPat1 : RE :=
  rcat [instWords, rstar clsWsColon, .group (.star true rdot), instWords]

/-- Python pattern `^([^0-9\n]*(?:university|college|institute|school)[^0-9\n]*)`. -/
def instPat2 : RE :=
  rcat [.bol, .group (rcat [rstar clsNonDigNl, instWords, rstar clsNonDigNl])]

/-- Python pattern `(?:awarded\s+by|issued\s+by|from)[\s\:]*([a-zA-Z\s\,\&\(\)]+)`. -/
def instPat3 : RE :=
  rcat [raltL [rcat [rlit "awarded", rplus rws, rlit "by"],
               rcat [rlit "issued", rplus rws, rlit "by"],
               rlit "from"],
        rstar clsWsColon, .group (rplus clsInstChar)]

/-- Python pattern `(?:grade|cgpa|gpa|marks|percentage)[\s\:]*([a-zA-Z0-9\.\s]+)`. -/
def gradePat1 : RE :=
  rcat [raltL [rlit "grade", rlit "cgpa", rlit "gpa", rlit "marks", rlit "percentage"],
        rstar clsWsColon, .group (rplus clsGradeChar)]

/-- Python pattern
`(?:secured|obtained|scored)[\s\:]*([a-zA-Z0-9\.\s]+)(?:\s*grade|\s*cgpa|\s*gpa|\s*marks|\s*%)`. -/
def gradePat2 : RE :=
  rcat [raltL [rlit "secured", rlit "obtained", rlit "scored"],
        rstar clsWsColon, .group (rplus clsGradeChar),
        raltL [rcat [rstar rws, rlit "grade"], rcat [rstar rws, rlit "cgpa"],
               rcat [rstar rws, rlit "gpa"], rcat [rstar rws, rlit "marks"],
               rcat [rstar rws, rlit "%"]]]

/-- Python pattern `(?:certificate|cert|diploma)[\s\:]*no[\s\:]*([a-zA-Z0-9\/\-]+)`. -/
def certPat1 : RE :=
  rcat [raltL [rlit "certificate", rlit "cert", rlit "diploma"],
        rstar clsWsColon, rlit "no", rstar clsWsColon, .group (rplus clsRollChar)]

/-- Python pattern `(?:serial|certificate)[\s\:]*([a-zA-Z0-9\/\-]+)`. -/
def certPat2 : RE :=
  rcat [raltL [rlit "serial", rlit "certificate"],
        rstar clsWsColon, .group (rplus clsRollChar)]

/-! ### Patterns used by `_clean_extracted_value` and `_post_process_fields` -/

/-- Python pattern `\s+`. -/
def wsPlus : RE := rplus rws

/-- Python pattern `[^\w\s\.\-\/\(\)\&]`. -/
def junkCls : RE :=
  .cls true [.sword, .sspace, .single '.', .single '-', .single '/',
             .single '(', .single ')', .single '&']

/-- Python pattern `(?:mr|ms|miss|dr|prof)\.?\s*`. -/
def honorificPat : RE :=
  rcat [raltL [rlit "mr", rlit "ms", rlit "miss", rlit "dr", rlit "prof"],
        ropt (rchar '.'), rstar rws]

/-- Python pattern `^[a-zA-Z0-9\/\-]{2,20}$`. -/
def rollFull : RE := rcat [.bol, rrep 2 clsRollChar, rupto 18 clsRollChar, .eol]

/-- Python pattern `(19|20)\d{2}` (the capture is group 1; the code
uses `match.group()`, the whole match). -/
def yearFind : RE := rcat [.group (raltL [rlit "19", rlit "20"]), rrep 2 rwd]

/-- Python pattern `([^,\n]*university[^,\n]*)`. -/
def instInd1 : RE := .group (rcat [rstar clsNonCommaNl, rlit "university", rstar clsNonCommaNl])
/-- Python pattern `([^,\n]*college[^,\n]*)`. -/
def instInd2 : RE := .group (rcat [rstar clsNonCommaNl, rlit "college", rstar clsNonCommaNl])
/-- Python pattern `([^,\n]*institute[^,\n]*)`. -/
def instInd3 : RE := .group (rcat [rstar clsNonCommaNl, rlit "institute", rstar clsNonCommaNl])

/-- Python pattern `(?:in|of)\s+([a-zA-Z\s\&\(\)]+)`. -/
def specPat : RE := rcat [raltL [rlit "in", rlit "of"], rplus rws, .group (rplus clsDegChar)]

/-- Python pattern `(?:in|of)\s+[a-zA-Z\s\&\(\)]+` (the substitution
variant without the capture group). -/
def specSubPat : RE := rcat [raltL [rlit "in", rlit "of"], rplus rws, rplus clsDegChar]

/-! ### `_clean_extracted_value` -/

/-- The seven credential fields with regex patterns. -/
inductive FieldT where
  | name
  | roll_number
  | degree
  | issue_year
  | institution
  | grade
  | certificate_number
deriving Repr, DecidableEq

/-- Python `int` on a digit string. -/
def digitsToNat (l : List Char) : Nat :=
  l.foldl (fun a c => a * 10 + (c.toNat - 48)) 0

/-- Decimal rendering worker (fuelled). -/
def natToDecAux : Nat → Nat → List Char
  | 0, _ => []
  | f + 1, n =>
    if n < 10 then [Char.ofNat (48 + n)]
    else natToDecAux f (n / 10) ++ [Char.ofNat (48 + n % 10)]

/-- Python `str` on a natural number. -/
def natToDec (n : Nat) : List Char := natToDecAux (n + 1) n

/-- Flags value `re.IGNORECASE | re.MULTILINE` (used by `_parse_credentials`). -/
def parseFlags : Flags := ⟨true, true⟩
/-- Flags value `re.IGNORECASE` (used by `_post_process_fields` and the
honorific substitution). -/
def icFlags : Flags := ⟨true, false⟩
/-- No flags. -/
def noFlags : Flags := ⟨false, false⟩

/-- The generic cleaning of `_clean_extracted_value`:
`cleaned = re.sub(r'\s+', ' ', value.strip())` followed by
`cleaned = re.sub(r'[^\w\s\.\-\/\(\)\&]', '', cleaned)`. -/
def genClean (value : List Char) : List Char :=
  reSub noFlags junkCls [] (reSub noFlags wsPlus [' '] (stripL value))

/-- Embedding of `OCRService._clean_extracted_value`.  `genClean value`
is the local `cleaned` of the source; the year branch's
`digitsToNat (extractSpan ...)` is the source's `int(year_match.group())`
and `natToDec` its `str(year)`. -/
def cleanVal (value : List Char) (ft : FieldT) : List Char :=
  if value = [] then []
  else
    match ft with
    | .name =>
      if 50 < (reSub icFlags honorificPat [] (genClean value)).length then []
      else reSub icFlags honorificPat [] (genClean value)
    | .roll_number =>
      if (reMatchAt0 noFlags rollFull (genClean value)).isSome then genClean value else []
    | .issue_year =>
      match reSearch noFlags yearFind (genClean value) with
      | some res =>
        if 1950 ≤ digitsToNat (extractSpan (genClean value) res.start res.stop) &&
            digitsToNat (extractSpan (genClean value) res.start res.stop) ≤ 2030 then
          natToDec (digitsToNat (extractSpan (genClean value) res.start res.stop))
        else []
      | none => []
    | _ => genClean value

/-! ### `_parse_credentials` and `_post_process_fields` -/

/-- The per-field pattern lists of `OCRService.__init__`, in source order. -/
def fieldPatterns : FieldT → List RE
  | .name => [namePat1, namePat2, namePat3]
  | .roll_number => [rollPat1, rollPat2, rollPat3]
  | .degree => [degPat1, degPat2, degPat3]
  | .issue_year => [yearPat1, yearPat2, yearPat3, yearPat4]
  | .institution => [instPat1, instPat2, instPat3]
  | .grade => [gradePat1, gradePat2]
  | .certificate_number => [certPat1, certPat2]

/-- The inner pattern loop of `_parse_credentials` for one field:
try patterns in order; on a match take `match.group(1).strip()`
(raising, like Python, when group 1 did not participate), clean it,
and accept the first non-empty cleaned value. -/
def extractField (ft : FieldT) (ps : List RE) (lower : List Char) :
    Except String (Option (List Char)) :=
  match ps with
  | [] => .ok none
  | p :: rest =>
    match reSearch parseFlags p lower with
    | none => extractField ft rest lower
    | some res =>
      match res.g1 with
      | none => .error "AttributeError"
      | some (a, b) =>
        let value := stripL (extractSpan lower a b)
        let cleaned := cleanVal value ft
        if cleaned = [] then extractField ft rest lower else .ok (some cleaned)

/-- The mutable `ExtractedCredential` record built by the parser
(`raw_text` and `confidence_score` are attached later by the
orchestrator and are not part of the parse). -/
structure Credentials where
  name : Option (List Char)
  roll_number : Option (List Char)
  degree : Option (List Char)
  issue_year : Option (List Char)
  institution : Option (List Char)
  grade : Option (List Char)
  specialization : Option (List Char)
  certificate_number : Option (List Char)
deriving Repr, DecidableEq

/-- Python truthiness of an optional string slot. -/
def optTruthy : Option (List Char) → Bool
  | none => false
  | some s => !s.isEmpty

/-- The institution-indicator loop of `_post_process_fields`. -/
def instIndLoop (ps : List RE) (raw : List Char) : Option (List Char) :=
  match ps with
  | [] => none
  | p :: rest =>
    match reSearch icFlags p raw with
    | none => instIndLoop rest raw
    | some res =>
      match res.g1 with
      | some (a, b) =>
        let instName := cleanVal (extractSpan raw a b) .institution
        if 10 < instName.length then some instName else instIndLoop rest raw
      | none => instIndLoop rest raw

/-- First half of `_post_process_fields`: when institution is absent
(or empty), search the ORIGINAL raw text with the broader indicator
patterns and accept the first cleaned candidate longer than 10. -/
def postInst (c : Credentials) (raw : List Char) : Credentials :=
  if !optTruthy c.institution then
    match instIndLoop [instInd1, instInd2, instInd3] raw with
    | some v => { c with institution := some v }
    | none => c
  else c

/-- Second half of `_post_process_fields`: when degree is present and
specialization absent, move the degree's `in/of X` clause into
specialization and strip it from degree. -/
def postSpec (c : Credentials) : Credentials :=
  if optTruthy c.degree && !optTruthy c.specialization then
    match c.degree with
    | some d =>
      match reSearch icFlags specPat d with
      | some res =>
        match res.g1 with
        | some (a, b) =>
          { c with specialization := some (stripL (extractSpan d a b)),
                   degree := some (stripL (reSub icFlags specSubPat [] d)) }
        | none => c
      | none => c
    | none => c
  else c

/-- Embedding of `OCRService._post_process_fields`. -/
def postProcessFields (c : Credentials) (raw : List Char) : Credentials :=
  postSpec (postInst c raw)

/-- Python `raw_text.lower()` over the ASCII fragment. -/
def lowerText (raw : List Char) : List Char := raw.map Char.toLower

/-- Embedding of `OCRService._parse_credentials`: lower-case the raw
text, extract the seven fields in dictionary order (each field's
extraction may raise, aborting the parse, like the Python loop), then
post-process.  The error case models the `AttributeError` Python raises
when a matching pattern's group 1 did not participate in the match. -/
def parseCredentials (raw : List Char) : Except String Credentials :=
  match extractField .name (fieldPatterns .name) (lowerText raw) with
  | .error e => .error e
  | .ok n =>
    match extractField .roll_number (fieldPatterns .roll_number) (lowerText raw) with
    | .error e => .error e
    | .ok r =>
      match extractField .degree (fieldPatterns .degree) (lowerText raw) with
      | .error e => .error e
      | .ok d =>
        match extractField .issue_year (fieldPatterns .issue_year) (lowerText raw) with
        | .error e => .error e
        | .ok y =>
          match extractField .institution (fieldPatterns .institution) (lowerText raw) with
          | .error e => .error e
          | .ok i =>
            match extractField .grade (fieldPatterns .grade) (lowerText raw) with
            | .error e => .error e
            | .ok g =>
              match extractField .certificate_number
                  (fieldPatterns .certificate_number) (lowerText raw) with
              | .error e => .error e
              | .ok ce => .ok (postProcessFields ⟨n, r, d, y, i, g, none, ce⟩ raw)

instance {ε α : Type} [DecidableEq ε] [DecidableEq α] : DecidableEq (Except ε α)
  | .error e, .error f =>
    if h : e = f then .isTrue (by rw [h]) else .isFalse (by intro hh; cases hh; exact h rfl)
  | .error _, .ok _ => .isFalse (by intro hh; cases hh)
  | .ok _, .error _ => .isFalse (by intro hh; cases hh)
  | .ok a, .ok b =>
    if h : a = b then .isTrue (by rw [h]) else .isFalse (by intro hh; cases hh; exact h rfl)

/-! ### `_extract_from_pdf` and `_extract_from_pdf_fallback`

Confidences (Python floats) are modelled as exact rationals; file
contents and library calls are modelled by their observable outcomes
(`Except`/`Option` values), with a raised exception as `.error`. -/

/-- One page of an open PyMuPDF document as observed by
`_extract_from_pdf`: the text layer returned by `page.get_text()`, and
the outcome of `_ocr_image` on the page's rasterized temporary image
(consulted only when the text layer is empty after `strip`). -/
structure PdfPage where
  text : List Char
  ocr : Except String (List Char × ℚ)
deriving DecidableEq

/-- The page loop of `_extract_from_pdf`, instrumented with the list of
temporary page-image files written but not yet unlinked (second
component of the result).  `i` is the page number and `txt`, `conf`,
`cnt` are the loop accumulators.  A text-layer page contributes
confidence 0.95; an OCR page writes `temp_page_i.png`, OCRs it, and
unlinks it — but when OCR raises, the exception propagates with the
temp file still present (the source has no try/finally around it). -/
def pdfPages : List PdfPage → Nat → List Char → ℚ → Nat → List Nat →
    Except String (List Char × ℚ) × List Nat
  | [], _, txt, conf, cnt, temps =>
    (.ok (stripL txt, if 0 < cnt then conf / (cnt : ℚ) else 0), temps)
  | p :: rest, i, txt, conf, cnt, temps =>
    if stripL p.text = [] then
      match p.ocr with
      | .error e => (.error e, temps ++ [i])
      | .ok (ptext, pconf) =>
        pdfPages rest (i + 1) (txt ++ ptext ++ ['\n']) (conf + pconf) (cnt + 1) temps
    else
      pdfPages rest (i + 1) (txt ++ p.text ++ ['\n']) (conf + 19/20) (cnt + 1) temps

/-- The primary (PyMuPDF) path of `_extract_from_pdf`.  The argument is
the outcome of `fitz.open`: an error, or the document's pages. -/
def extractFromPdfPrimary (doc : Except String (List PdfPage)) :
    Except String (List Char × ℚ) × List Nat :=
  match doc with
  | .error e => (.error e, [])
  | .ok pages => pdfPages pages 0 [] 0 0 []

/-- Embedding of `_extract_from_pdf_fallback` (PyPDF2).  The argument
is the outcome of opening and parsing the file: an error, or the list
of per-page `extract_text()` results.  On success the page texts are
concatenated newline-terminated, stripped, with fixed confidence 0.8;
an open/parse failure is re-raised unchanged. -/
def extractFromPdfFallback (r : Except String (List (List Char))) :
    Except String (List Char × ℚ) :=
  match r with
  | .error e => .error e
  | .ok texts => .ok (stripL (texts.foldl (fun acc t => acc ++ t ++ ['\n']) []), 4/5)

/-- Embedding of `_extract_from_pdf`: run the primary path; on any
exception fall back once to the PyPDF2 extractor, whose own failure
propagates to the caller. -/
def extractFromPdf (doc : Except String (List PdfPage))
    (fb : Except String (List (List Char))) : Except String (List Char × ℚ) :=
  match (extractFromPdfPrimary doc).1 with
  | .ok r => .ok r
  | .error _ => extractFromPdfFallback fb

/-! ### `_preprocess_image` -/

/-- Rasters as abstract tokens; `empty` models `np.array([])`. -/
inductive Raster where
  | empty
  | img (id : Nat)
deriving Repr, DecidableEq

/-- The environment `_preprocess_image` runs in: the outcome of
`cv2.imread` (`none` models `None`), of the PIL fallback decode plus
BGR conversion (`none` models a raised exception), and of each
processing step (`cvtColor` to grayscale, `fastNlMeansDenoising`,
`adaptiveThreshold`; `none` models a raised exception). -/
structure ImgEnv where
  cvRead : Option Raster
  pilRead : Option Raster
  toGray : Raster → Option Raster
  denoise : Raster → Option Raster
  threshold : Raster → Option Raster

/-- The try-block of `_preprocess_image`: decode (cv2, else PIL), then
grayscale, denoise, adaptive threshold. -/
def preprocessTry (env : ImgEnv) : Option Raster := do
  let img ← match env.cvRead with
            | some i => some i
            | none => env.pilRead
  let g ← env.toGray img
  let d ← env.denoise g
  env.threshold d

/-- Embedding of `_preprocess_image`: on any failure in the try-block
the handler re-reads with `cv2.imread` and returns that image, or the
empty raster when the re-read yields `None`. -/
def preprocessImage (env : ImgEnv) : Raster :=
  match preprocessTry env with
  | some r => r
  | none =>
    match env.cvRead with
    | some i => i
    | none => Raster.empty

/-! ### Concrete inputs used by the claims -/

/-- The raw text of the spec's worked parsing example (claim C1). -/
def c1Text : List Char :=
  "This is to certify that John Smith has completed Bachelor of Science in Physics in the year 2015 from ABC University".data

/-- The actual parse of the C1 example text, as computed by the code:
the name candidate captured by the `certify that` pattern is the whole
tail up to the digits (67 characters) and is rejected by the 50-char
limit; the degree capture starts after the consumed `bachelor of`
prefix. -/
def c1Result : Credentials :=
  ⟨none, none, some "science".data, some "2015".data,
   some "abc university".data, none, some "physics in the year".data, none⟩

/-! ### Claim C1 -/

/-- C1 counterexample: on the spec's own example text the parser does
NOT return name="John Smith" — the name slot is absent (and the degree
does not contain "Bachelor of Science", the specialization is
"physics in the year" rather than "Physics", and the institution is
the lower-cased "abc university").  The claimed field map is refuted
at its stated input. -/
theorem c1_parse_example_name_absent :
    Except.map Credentials.name (parseCredentials c1Text) = .ok none ∧
    Except.map Credentials.specialization (parseCredentials c1Text) ≠
      .ok (some "Physics".data) := by
  constructor
  · decide
  · decide

/-- C1 (amended): on the example text the parser returns name absent
(the `certify that` capture is 67 characters and fails the 50-char name
limit), degree "science" (the pattern consumes "bachelor of" and
post-processing then moves the "in ..." clause out), specialization
"physics in the year", issue_year "2015", and institution
"abc university" (matched against the lower-cased text). -/
theorem c1_parse_example_actual :
    parseCredentials c1Text = .ok c1Result := by decide

/-! ### Claim C2 -/

/-- C2 is a code bug: the parser does not return a field map for every
input; it raises.  On raw text "mr. x" the name pattern
`mr\.|ms\.|miss\s+([a-zA-Z\s\.]+)` matches via the `mr\.` alternative,
in which capture group 1 does not participate, so `match.group(1)` is
`None` and `.strip()` raises `AttributeError`.  The claim (and spec)
say absence of a field is the normal outcome and the parser never
raises; the code contradicts the clear intent of its own pattern. -/
theorem c2_parser_raises_on_mr :
    parseCredentials "mr. x".data = .error "AttributeError" := by decide

/-! ### Claim C6 -/

/-- C6 is a code bug: on a scanned page (empty text layer) whose OCR
raises, `_extract_from_pdf` propagates the exception without unlinking
the page's temporary image file — the instrumented leftover-temp-file
list is `[0]`, not `[]`.  Cleanup is contingent on OCR success, while
the claim (and spec) require it to be unconditional. -/
theorem c6_temp_file_leak :
    extractFromPdfPrimary (.ok [⟨[], .error "ocr failed"⟩]) =
      (.error "ocr failed", [0]) ∧ ([0] : List Nat) ≠ [] := by
  constructor
  · rfl
  · decide

/-! ### Claim C5 -/

/-- An environment in which `cv2.imread` yields `None`, the PIL
fallback decodes the image, and the grayscale step then raises. -/
def c5Env : ImgEnv :=
  ⟨none, some (Raster.img 7), fun _ => none, fun r => some r, fun r => some r⟩

/-- C5 counterexample: when the image was decodable only by the PIL
fallback and a later step fails, the handler re-reads with `cv2.imread`
(which again yields `None`) and returns the EMPTY raster — not "the
best raster obtained so far — the original decoded image" as claimed. -/
theorem c5_preprocess_counterexample :
    preprocessImage c5Env = Raster.empty ∧ Raster.empty ≠ Raster.img 7 := by
  constructor
  · rfl
  · decide

/-- C5 (amended): `preprocess` never raises (it is total); given an
undecodable input (both decoders fail) it returns the empty raster; and
when a step after decoding fails it returns the result of RE-READING via
the primary decoder: the original cv2 image when cv2 decoded the input,
but the empty raster when only the PIL fallback had decoded it. -/
theorem c5_preprocess_amended (env : ImgEnv) :
    (env.cvRead = none → env.pilRead = none → preprocessImage env = Raster.empty) ∧
    (∀ i, env.cvRead = some i → preprocessTry env = none → preprocessImage env = i) ∧
    (env.cvRead = none → preprocessTry env = none → preprocessImage env = Raster.empty) := by
  refine ⟨fun h1 h2 => ?_, fun i h1 h2 => ?_, fun h1 h2 => ?_⟩
  · simp [preprocessImage, preprocessTry, h1, h2]
  · simp [preprocessImage, h1, h2]
  · simp [preprocessImage, h1, h2]

/-- C5 amended witness: in the environment `c5Env` the try-block fails
after a successful PIL decode, and the function returns the empty
raster via the third conjunct of the amended statement. -/
theorem c5_preprocess_amended_witness :
    preprocessImage c5Env = Raster.empty :=
  (c5_preprocess_amended c5Env).2.2 rfl rfl

/-! ### Claims C3 and C4 -/

/-- The spec's notion of "page texts concatenated in page order,
newline-separated". -/
def newlineSeparated : List (List Char) → List Char
  | [] => []
  | [t] => t
  | t :: rest => t ++ '\n' :: newlineSeparated rest

theorem dropWhile_space_cons_newline (x : List Char) :
    List.dropWhile (fun c => isSpaceChar c) ('\n' :: x) =
      List.dropWhile (fun c => isSpaceChar c) x := by
  rw [List.dropWhile_cons, if_pos (by decide)]

theorem stripL_append_newline (l : List Char) : stripL (l ++ ['\n']) = stripL l := by
  unfold stripL
  rw [List.dropWhile_append]
  by_cases h : (List.dropWhile (fun c => isSpaceChar c) l).isEmpty
  · rw [if_pos h]
    have h0 : List.dropWhile (fun c => isSpaceChar c) l = [] := by
      cases hd : List.dropWhile (fun c => isSpaceChar c) l with
      | nil => rfl
      | cons a as => rw [hd] at h; simp at h
    rw [h0]
    rfl
  · rw [if_neg h, List.reverse_append,
        show (['\n'] : List Char).reverse = ['\n'] from rfl,
        List.singleton_append, dropWhile_space_cons_newline]

theorem flatten_eq_newlineSeparated (texts : List (List Char)) (h : texts ≠ []) :
    (texts.map (· ++ ['\n'])).flatten = newlineSeparated texts ++ ['\n'] := by
  induction texts with
  | nil => exact absurd rfl h
  | cons t rest ih =>
    cases rest with
    | nil => simp [newlineSeparated]
    | cons u more =>
      rw [List.map_cons, List.flatten_cons, ih (by simp)]
      show t ++ ['\n'] ++ (newlineSeparated (u :: more) ++ ['\n']) =
        (t ++ '\n' :: newlineSeparated (u :: more)) ++ ['\n']
      simp [List.append_assoc]

theorem stripL_flatten_eq (texts : List (List Char)) :
    stripL ((texts.map (· ++ ['\n'])).flatten) = stripL (newlineSeparated texts) := by
  cases h : texts with
  | nil => simp [newlineSeparated]
  | cons t rest =>
    rw [← h, flatten_eq_newlineSeparated texts (by simp [h]), stripL_append_newline]

/-- Behaviour of the page loop on a document all of whose pages carry a
non-empty text layer: the loop concatenates the text layers
newline-terminated and each page contributes exactly 0.95 to the
confidence total, with no temp files touched. -/
theorem pdfPages_all_text (pages : List PdfPage)
    (h : ∀ p ∈ pages, stripL p.text ≠ []) (i : Nat) (txt : List Char)
    (conf : ℚ) (cnt : Nat) (temps : List Nat) :
    pdfPages pages i txt conf cnt temps =
      (.ok (stripL (txt ++ (pages.map (fun p => p.text ++ ['\n'])).flatten),
            if 0 < cnt + pages.length then
              (conf + pages.length * (19/20)) / ((cnt + pages.length : Nat) : ℚ)
            else 0),
       temps) := by
  induction pages generalizing i txt conf cnt with
  | nil => simp [pdfPages]
  | cons p rest ih =>
    have hp : stripL p.text ≠ [] := h p (by simp)
    have hrest : ∀ q ∈ rest, stripL q.text ≠ [] := fun q hq => h q (by simp [hq])
    simp only [pdfPages]
    rw [if_neg hp, ih hrest]
    simp only [List.map_cons, List.flatten_cons, List.length_cons,
      Prod.mk.injEq, Except.ok.injEq]
    refine ⟨⟨?_, ?_⟩, trivial⟩
    · simp [List.append_assoc]
    · have h1 : cnt + 1 + rest.length = cnt + (rest.length + 1) := by omega
      rw [h1]
      have h2 : 0 < cnt + (rest.length + 1) := by omega
      rw [if_pos h2, if_pos h2]
      congr 1
      push_cast
      ring

/-- C3 (amended): for a PDF whose every page yields non-empty
text-layer text, `extract` returns the pages' text layers concatenated
in page order, newline-separated, WITH the whole concatenation stripped
of leading and trailing whitespace (the code's final `full_text.strip()`),
and confidence equal to the arithmetic mean of per-page confidences in
which each page contributes exactly 0.95 (hence 0.95, or 0.0 for a
zero-page document).  The fallback extractor argument is irrelevant on
this path. -/
theorem extractFromPdfPrimary_ok (pages : List PdfPage) :
    extractFromPdfPrimary (.ok pages) = pdfPages pages 0 [] 0 0 [] := rfl

theorem extractFromPdf_ok_of (doc : Except String (List PdfPage))
    (fb : Except String (List (List Char))) (r : List Char × ℚ)
    (h : (extractFromPdfPrimary doc).1 = .ok r) : extractFromPdf doc fb = .ok r := by
  unfold extractFromPdf
  rw [h]

theorem extractFromPdf_error_of (doc : Except String (List PdfPage))
    (fb : Except String (List (List Char))) (e : String)
    (h : (extractFromPdfPrimary doc).1 = .error e) :
    extractFromPdf doc fb = extractFromPdfFallback fb := by
  unfold extractFromPdf
  rw [h]

theorem c3_pdf_text_layer_amended (pages : List PdfPage)
    (h : ∀ p ∈ pages, stripL p.text ≠ [])
    (fb : Except String (List (List Char))) :
    extractFromPdf (.ok pages) fb =
      .ok (stripL (newlineSeparated (pages.map PdfPage.text)),
           if pages = [] then 0 else 19/20) := by
  have hok : extractFromPdf (.ok pages) fb =
      .ok (stripL ([] ++ (pages.map (fun p => p.text ++ ['\n'])).flatten),
           if 0 < 0 + pages.length then
             ((0 : ℚ) + (pages.length : ℚ) * (19/20)) / ((0 + pages.length : Nat) : ℚ)
           else 0) := by
    refine extractFromPdf_ok_of _ fb _ ?_
    rw [extractFromPdfPrimary_ok, pdfPages_all_text pages h 0 [] 0 0 []]
  rw [hok, List.nil_append,
      show pages.map (fun p => p.text ++ ['\n']) =
        (pages.map PdfPage.text).map (· ++ ['\n']) from by rw [List.map_map]; rfl,
      stripL_flatten_eq]
  cases pages with
  | nil => norm_num [newlineSeparated]
  | cons q qs =>
    rw [if_pos (by simp), if_neg (by simp)]
    have hl : (((q :: qs).length : ℚ)) ≠ 0 := by
      exact Nat.cast_ne_zero.mpr (by simp)
    rw [show ((0 + (q :: qs).length : Nat) : ℚ) = (((q :: qs).length : Nat) : ℚ) by push_cast; ring,
        zero_add, mul_comm, mul_div_assoc, div_self hl, mul_one]

/-- The concrete two-page text-layer document used as the C3 witness. -/
def c3WitnessPages : List PdfPage :=
  [⟨"page one".data, .error "unused"⟩, ⟨"page two".data, .error "unused"⟩]

/-- C3 amended witness: a concrete two-page text-layer PDF.  Both pages
carry non-empty text; the result is the stripped newline-separated
concatenation with confidence 19/20 = 0.95. -/
theorem c3_pdf_text_layer_amended_witness :
    extractFromPdf (.ok c3WitnessPages) (.error "unused") =
      .ok (stripL (newlineSeparated (c3WitnessPages.map PdfPage.text)), 19/20) := by
  have h := c3_pdf_text_layer_amended c3WitnessPages (by decide) (.error "unused")
  rw [if_neg (by decide : ¬(c3WitnessPages = []))] at h
  exact h

/-- C3 counterexample: the claim promises the pages' LITERAL text-layer
strings concatenated; but the code strips the concatenation, so a page
text with leading whitespace is not returned literally: a one-page
document with text layer " x" yields "x". -/
theorem c3_pdf_literal_text_counterexample :
    extractFromPdf (.ok [⟨" x".data, .error "unused"⟩]) (.error "unused") =
      .ok ("x".data, 19/20) ∧ "x".data ≠ " x".data := by
  constructor
  · have h1 : extractFromPdf (.ok [⟨" x".data, .error "unused"⟩]) (.error "unused") =
        .ok (stripL ([] ++ " x".data ++ ['\n']),
             ((0 : ℚ) + 19/20) / ((0 + 1 : Nat) : ℚ)) := rfl
    have h2 : stripL ([] ++ " x".data ++ ['\n']) = "x".data := by decide
    have h3 : ((0 : ℚ) + 19/20) / ((0 + 1 : Nat) : ℚ) = 19/20 := by norm_num
    rw [h1, h2, h3]
  · decide

theorem foldl_append_newline (texts : List (List Char)) (acc : List Char) :
    texts.foldl (fun a t => a ++ t ++ ['\n']) acc =
      acc ++ (texts.map (· ++ ['\n'])).flatten := by
  induction texts generalizing acc with
  | nil => simp
  | cons t rest ih =>
    simp only [List.foldl_cons, List.map_cons, List.flatten_cons]
    rw [ih]
    simp [List.append_assoc]

/-- C4: if the primary whole-document PDF path raises any error,
`extract` falls back (exactly once, there is no second retry in the
functional composition) to the PyPDF2 text-layer-only extractor: when
that succeeds it returns the pages' texts concatenated
newline-separated (stripped) with fixed confidence 0.8 = 4/5, and when
the fallback itself raises, that failure propagates unchanged to the
caller. -/
theorem c4_pdf_fallback (doc : Except String (List PdfPage)) (e : String)
    (h : (extractFromPdfPrimary doc).1 = .error e) :
    (∀ texts : List (List Char),
       extractFromPdf doc (.ok texts) =
         .ok (stripL (newlineSeparated texts), 4/5)) ∧
    (∀ e2 : String, extractFromPdf doc (.error e2) = .error e2) := by
  constructor
  · intro texts
    rw [extractFromPdf_error_of doc (.ok texts) e h]
    show Except.ok (stripL (List.foldl (fun acc t => acc ++ t ++ ['\n']) [] texts), (4/5 : ℚ)) = _
    rw [foldl_append_newline, List.nil_append, stripL_flatten_eq]
  · intro e2
    exact (extractFromPdf_error_of doc (.error e2) e h).trans rfl

/-! ### Claim C7 -/

/-- The outcome of trying ONE pattern of a field inside the
`_parse_credentials` loop: no match (or a match whose cleaned capture
is empty) leaves the field untouched; a match whose group 1 did not
participate raises; a match whose cleaned capture is non-empty is
accepted. -/
def patTry (ft : FieldT) (q : RE) (lower : List Char) : Except String (Option (List Char)) :=
  match reSearch parseFlags q lower with
  | none => .ok none
  | some res =>
    match res.g1 with
    | none => .error "AttributeError"
    | some (a, b) =>
      if cleanVal (stripL (extractSpan lower a b)) ft = [] then .ok none
      else .ok (some (cleanVal (stripL (extractSpan lower a b)) ft))

/-- The field loop steps through its pattern list one `patTry` at a
time, stopping at the first accepted value (or raising). -/
theorem extractField_cons (ft : FieldT) (q : RE) (rest : List RE) (lower : List Char) :
    extractField ft (q :: rest) lower =
      match patTry ft q lower with
      | .error e => .error e
      | .ok none => extractField ft rest lower
      | .ok (some v) => .ok (some v) := by
  simp only [extractField, patTry]
  cases hs : reSearch parseFlags q lower with
  | none => rfl
  | some res =>
    cases hg : res.g1 with
    | none => simp [hg]
    | some ab =>
      obtain ⟨a, b⟩ := ab
      by_cases hc : cleanVal (stripL (extractSpan lower a b)) ft = []
      · simp [hg, hc]
      · simp [hg, hc]

/-- C7: first-match-wins.  If every pattern before `p` in the field's
priority order fails to produce an accepted value (no match, or a match
whose cleaned capture is empty) and `p`'s match survives cleaning with
the non-empty value `v`, then the field's extraction returns `v`, and
the patterns after `p` are never consulted: the result is the same
whatever follows `p`. -/
theorem c7_first_match_wins (ft : FieldT) (pre post : List RE) (p : RE)
    (lower : List Char) (v : List Char)
    (hpre : ∀ q ∈ pre, patTry ft q lower = .ok none)
    (hp : patTry ft p lower = .ok (some v)) :
    extractField ft (pre ++ p :: post) lower = .ok (some v) ∧
    extractField ft (pre ++ p :: post) lower = extractField ft (pre ++ [p]) lower := by
  induction pre with
  | nil =>
    constructor
    · rw [List.nil_append, extractField_cons, hp]
    · rw [List.nil_append, List.nil_append, extractField_cons, extractField_cons, hp]
  | cons q qs ih =>
    have hq : patTry ft q lower = .ok none := hpre q (by simp)
    have hqs : ∀ x ∈ qs, patTry ft x lower = .ok none := fun x hx => hpre x (by simp [hx])
    obtain ⟨ih1, ih2⟩ := ih hqs
    constructor
    · rw [List.cons_append, extractField_cons, hq]
      exact ih1
    · rw [List.cons_append, List.cons_append, extractField_cons, extractField_cons, hq]
      exact ih2

/-- C7 witness: on text "year 1800 passed 2015" the first issue_year
pattern matches but its capture "1800" fails year validation (no
19xx/20xx in range), the second pattern's capture "2015" is accepted,
and the remaining two patterns are never consulted. -/
theorem c7_first_match_wins_witness :
    extractField .issue_year (fieldPatterns .issue_year) "year 1800 passed 2015".data =
      .ok (some "2015".data) :=
  (c7_first_match_wins .issue_year [yearPat1] [yearPat3, yearPat4] yearPat2
    "year 1800 passed 2015".data "2015".data
    (by intro q hq; simp at hq; subst hq; decide) (by decide)).1

/-- C4 witness: a document whose open fails ("boom") falls back; with a
readable one-page fallback the result is the fallback text at
confidence 4/5, and with a failing fallback the fallback's error
"disk gone" propagates unchanged. -/
theorem c4_pdf_fallback_witness :
    extractFromPdf (.error "boom") (.ok ["ab".data]) =
        .ok (stripL (newlineSeparated ["ab".data]), 4/5) ∧
      extractFromPdf (.error "boom") (.error "disk gone") = .error "disk gone" :=
  ⟨(c4_pdf_fallback (.error "boom") "boom" rfl).1 ["ab".data],
   (c4_pdf_fallback (.error "boom") "boom" rfl).2 "disk gone"⟩

/-! ### Structure of a successful parse -/

theorem extractField_nil (ft : FieldT) (lower : List Char) :
    extractField ft [] lower = .ok none := rfl

/-- A successful parse decomposes into the seven per-field extractions
followed by post-processing. -/
theorem parseCredentials_ok_elim (raw : List Char) (m : Credentials)
    (h : parseCredentials raw = .ok m) :
    ∃ n r d y i g ce,
      extractField .name (fieldPatterns .name) (lowerText raw) = .ok n ∧
      extractField .roll_number (fieldPatterns .roll_number) (lowerText raw) = .ok r ∧
      extractField .degree (fieldPatterns .degree) (lowerText raw) = .ok d ∧
      extractField .issue_year (fieldPatterns .issue_year) (lowerText raw) = .ok y ∧
      extractField .institution (fieldPatterns .institution) (lowerText raw) = .ok i ∧
      extractField .grade (fieldPatterns .grade) (lowerText raw) = .ok g ∧
      extractField .certificate_number (fieldPatterns .certificate_number) (lowerText raw) = .ok ce ∧
      m = postProcessFields ⟨n, r, d, y, i, g, none, ce⟩ raw := by
  unfold parseCredentials at h
  cases h1 : extractField .name (fieldPatterns .name) (lowerText raw) with
  | error e => simp [h1] at h
  | ok n =>
  simp only [h1] at h
  cases h2 : extractField .roll_number (fieldPatterns .roll_number) (lowerText raw) with
  | error e => simp [h2] at h
  | ok r =>
  simp only [h2] at h
  cases h3 : extractField .degree (fieldPatterns .degree) (lowerText raw) with
  | error e => simp [h3] at h
  | ok d =>
  simp only [h3] at h
  cases h4 : extractField .issue_year (fieldPatterns .issue_year) (lowerText raw) with
  | error e => simp [h4] at h
  | ok y =>
  simp only [h4] at h
  cases h5 : extractField .institution (fieldPatterns .institution) (lowerText raw) with
  | error e => simp [h5] at h
  | ok i =>
  simp only [h5] at h
  cases h6 : extractField .grade (fieldPatterns .grade) (lowerText raw) with
  | error e => simp [h6] at h
  | ok g =>
  simp only [h6] at h
  cases h7 : extractField .certificate_number (fieldPatterns .certificate_number) (lowerText raw) with
  | error e => simp [h7] at h
  | ok ce =>
  simp only [h7, Except.ok.injEq] at h
  exact ⟨n, r, d, y, i, g, ce, rfl, rfl, rfl, rfl, rfl, rfl, rfl, h.symm⟩

/-- `postInst` touches only the institution slot. -/
theorem postInst_fields (c : Credentials) (raw : List Char) :
    (postInst c raw).name = c.name ∧ (postInst c raw).roll_number = c.roll_number ∧
    (postInst c raw).degree = c.degree ∧ (postInst c raw).issue_year = c.issue_year ∧
    (postInst c raw).grade = c.grade ∧ (postInst c raw).specialization = c.specialization ∧
    (postInst c raw).certificate_number = c.certificate_number := by
  unfold postInst
  repeat' split
  all_goals simp

/-- `postSpec` touches only the degree and specialization slots. -/
theorem postSpec_fields (c : Credentials) :
    (postSpec c).name = c.name ∧ (postSpec c).roll_number = c.roll_number ∧
    (postSpec c).issue_year = c.issue_year ∧ (postSpec c).institution = c.institution ∧
    (postSpec c).grade = c.grade ∧ (postSpec c).certificate_number = c.certificate_number := by
  unfold postSpec
  repeat' split
  all_goals simp

/-- `postSpec` either leaves degree and specialization both unchanged,
or (when it fires) moves a stripped span of the degree string into
specialization and replaces degree by a stripped substitution result on
the old degree string. -/
theorem postSpec_spec_degree (c : Credentials) :
    ((postSpec c).degree = c.degree ∧ (postSpec c).specialization = c.specialization) ∨
    (∃ d a b, c.degree = some d ∧
      (postSpec c).specialization = some (stripL (extractSpan d a b)) ∧
      (postSpec c).degree = some (stripL (reSub icFlags specSubPat [] d))) := by
  unfold postSpec
  split
  · split
    · split
      · split
        · rename_i hc o1 d heq o2 res0 hsr o3 a b hg
          right
          exact ⟨d, a, b, heq, by simp, by simp⟩
        · left; exact ⟨rfl, rfl⟩
      · left; exact ⟨rfl, rfl⟩
    · left; exact ⟨rfl, rfl⟩
  · left; exact ⟨rfl, rfl⟩

/-- Institution is preserved by `postInst` when already truthy. -/
theorem postInst_institution_truthy (c : Credentials) (raw : List Char)
    (h : optTruthy c.institution = true) : (postInst c raw).institution = c.institution := by
  unfold postInst
  rw [h]
  simp

/-- A pattern accepted inside the loop yields a non-empty cleaned value
originating from a span of the lower-cased text. -/
theorem patTry_ok_some (ft : FieldT) (q : RE) (lower w : List Char)
    (h : patTry ft q lower = .ok (some w)) :
    w ≠ [] ∧ ∃ a b, w = cleanVal (stripL (extractSpan lower a b)) ft := by
  unfold patTry at h
  split at h
  · simp at h
  · split at h
    · simp at h
    · split at h
      · simp at h
      · rename_i res hres a b hg hne
        simp only [Except.ok.injEq, Option.some.injEq] at h
        subst h
        exact ⟨hne, a, b, rfl⟩

/-- A field value produced by the pattern loop is a non-empty cleaned
value originating from a span of the lower-cased text. -/
theorem extractField_ok_some (ft : FieldT) (ps : List RE) (lower v : List Char)
    (h : extractField ft ps lower = .ok (some v)) :
    v ≠ [] ∧ ∃ a b, v = cleanVal (stripL (extractSpan lower a b)) ft := by
  induction ps with
  | nil => rw [extractField_nil] at h; simp at h
  | cons p rest ih =>
    rw [extractField_cons] at h
    cases hp : patTry ft p lower with
    | error e => simp [hp] at h
    | ok o =>
      cases o with
      | none =>
        simp only [hp] at h
        exact ih h
      | some w =>
        simp only [hp, Except.ok.injEq, Option.some.injEq] at h
        subst h
        exact patTry_ok_some ft p lower w hp


/-! ### Claim C10: character-level origin of parsed values -/

/-- No ASCII uppercase letter (code 65-90) occurs in the list. -/
def noUpper (l : List Char) : Prop := ∀ c ∈ l, ¬(65 ≤ c.toNat ∧ c.toNat ≤ 90)

theorem charOfNat_toNat (m : Nat) (h : m < 55296) : (Char.ofNat m).toNat = m := by
  unfold Char.ofNat
  rw [dif_pos (Or.inl h)]
  rfl

theorem toLower_not_upper (c : Char) :
    ¬(65 ≤ (Char.toLower c).toNat ∧ (Char.toLower c).toNat ≤ 90) := by
  simp only [Char.toLower]
  by_cases h : c.toNat ≥ 65 ∧ c.toNat ≤ 90
  · rw [if_pos h, charOfNat_toNat (c.toNat + 32) (by omega)]
    omega
  · rw [if_neg h]
    omega

theorem lowerText_noUpper (raw : List Char) : noUpper (lowerText raw) := by
  intro c hc
  unfold lowerText at hc
  rw [List.mem_map] at hc
  obtain ⟨x, _, rfl⟩ := hc
  exact toLower_not_upper x

theorem mem_of_mem_dropWhile (p : Char → Bool) (l : List Char) (c : Char)
    (h : c ∈ l.dropWhile p) : c ∈ l := by
  induction l with
  | nil => simp at h
  | cons a as ih =>
    rw [List.dropWhile_cons] at h
    split at h
    · exact List.mem_cons_of_mem a (ih h)
    · exact h

theorem stripL_subset (l : List Char) : ∀ c ∈ stripL l, c ∈ l := by
  intro c hc
  unfold stripL at hc
  rw [List.mem_reverse] at hc
  have h2 := mem_of_mem_dropWhile _ _ _ hc
  rw [List.mem_reverse] at h2
  exact mem_of_mem_dropWhile _ _ _ h2

theorem extractSpan_subset (s : List Char) (a b : Nat) :
    ∀ c ∈ extractSpan s a b, c ∈ s := by
  intro c hc
  unfold extractSpan at hc
  exact List.drop_subset _ _ (List.take_subset _ _ hc)

/-- Every character of a substitution result comes from the subject
string or from the replacement. -/
theorem reSubAux_chars (fl : Flags) (r : RE) (rep : List Char) :
    ∀ f rem prev pos c, c ∈ reSubAux fl r rep f rem prev pos → c ∈ rem ∨ c ∈ rep := by
  intro f
  induction f with
  | zero =>
    intro rem prev pos c hc
    exact Or.inl hc
  | succ f ih =>
    intro rem prev pos c hc
    simp only [reSubAux] at hc
    split at hc
    · exact Or.inl hc
    · rename_i o res hsearch
      split at hc
      · split at hc
        · rw [List.mem_append] at hc
          rcases hc with hc | hc
          · exact Or.inl (List.take_subset _ _ hc)
          · exact Or.inr hc
        · rename_i c2 rest hdr
          simp only [List.append_assoc, List.mem_append, List.mem_cons,
            List.not_mem_nil, or_false] at hc
          rcases hc with hc | hc | hc | hc
          · exact Or.inl (List.take_subset _ _ hc)
          · exact Or.inr hc
          · subst hc
            have hin : c ∈ rem.drop (res.start - pos) := by
              rw [hdr]
              exact List.mem_cons_self _ _
            exact Or.inl (List.drop_subset _ _ hin)
          · rcases ih rest _ _ c hc with h2 | h2
            · have hin : c ∈ rem.drop (res.start - pos) := by
                rw [hdr]
                exact List.mem_cons_of_mem _ h2
              exact Or.inl (List.drop_subset _ _ hin)
            · exact Or.inr h2
      · simp only [List.append_assoc, List.mem_append] at hc
        rcases hc with hc | hc | hc
        · exact Or.inl (List.take_subset _ _ hc)
        · exact Or.inr hc
        · rcases ih (rem.drop (res.stop - pos)) _ _ c hc with h2 | h2
          · exact Or.inl (List.drop_subset _ _ h2)
          · exact Or.inr h2

theorem reSub_chars (fl : Flags) (r : RE) (rep s : List Char) (c : Char)
    (hc : c ∈ reSub fl r rep s) : c ∈ s ∨ c ∈ rep := by
  unfold reSub at hc
  exact reSubAux_chars fl r rep _ _ _ _ c hc

theorem genClean_chars (v : List Char) (c : Char) (hc : c ∈ genClean v) :
    c ∈ v ∨ c = ' ' := by
  unfold genClean at hc
  rcases reSub_chars _ _ _ _ c hc with h1 | h1
  · rcases reSub_chars _ _ _ _ c h1 with h2 | h2
    · exact Or.inl (stripL_subset v c h2)
    · simp at h2
      exact Or.inr h2
  · simp at h1

theorem natToDecAux_digits (f : Nat) : ∀ (n : Nat) (c : Char), c ∈ natToDecAux f n →
    48 ≤ c.toNat ∧ c.toNat ≤ 57 := by
  induction f with
  | zero =>
    intro n c hc
    simp [natToDecAux] at hc
  | succ f ih =>
    intro n c hc
    unfold natToDecAux at hc
    split at hc
    · rename_i hlt
      simp only [List.mem_singleton] at hc
      subst hc
      rw [charOfNat_toNat (48 + n) (by omega)]
      omega
    · rw [List.mem_append] at hc
      rcases hc with hc | hc
      · exact ih _ c hc
      · simp only [List.mem_singleton] at hc
        subst hc
        rw [charOfNat_toNat (48 + n % 10) (by omega)]
        omega

theorem natToDec_digits (n : Nat) (c : Char) (hc : c ∈ natToDec n) :
    48 ≤ c.toNat ∧ c.toNat ≤ 57 := natToDecAux_digits _ _ c hc

/-- Every character of a cleaned value comes from the candidate, or is
the space inserted by whitespace collapsing, or is a digit (issue_year
normalization). -/
theorem cleanVal_chars (x : List Char) (ft : FieldT) (c : Char) (hc : c ∈ cleanVal x ft) :
    c ∈ x ∨ c = ' ' ∨ (48 ≤ c.toNat ∧ c.toNat ≤ 57) := by
  cases ft with
  | name =>
    simp only [cleanVal] at hc
    split at hc
    · simp at hc
    · split at hc
      · simp at hc
      · rcases reSub_chars _ _ _ _ c hc with h1 | h1
        · rcases genClean_chars x c h1 with h2 | h2
          · exact Or.inl h2
          · exact Or.inr (Or.inl h2)
        · simp at h1
  | roll_number =>
    simp only [cleanVal] at hc
    split at hc
    · simp at hc
    · split at hc
      · rcases genClean_chars x c hc with h2 | h2
        · exact Or.inl h2
        · exact Or.inr (Or.inl h2)
      · simp at hc
  | issue_year =>
    simp only [cleanVal] at hc
    split at hc
    · simp at hc
    · split at hc
      · split at hc
        · exact Or.inr (Or.inr (natToDec_digits _ c hc))
        · simp at hc
      · simp at hc
  | degree =>
    simp only [cleanVal] at hc
    split at hc
    · simp at hc
    · rcases genClean_chars x c hc with h2 | h2
      · exact Or.inl h2
      · exact Or.inr (Or.inl h2)
  | institution =>
    simp only [cleanVal] at hc
    split at hc
    · simp at hc
    · rcases genClean_chars x c hc with h2 | h2
      · exact Or.inl h2
      · exact Or.inr (Or.inl h2)
  | grade =>
    simp only [cleanVal] at hc
    split at hc
    · simp at hc
    · rcases genClean_chars x c hc with h2 | h2
      · exact Or.inl h2
      · exact Or.inr (Or.inl h2)
  | certificate_number =>
    simp only [cleanVal] at hc
    split at hc
    · simp at hc
    · rcases genClean_chars x c hc with h2 | h2
      · exact Or.inl h2
      · exact Or.inr (Or.inl h2)

theorem noUpper_cleanVal (x : List Char) (ft : FieldT) (hx : noUpper x) :
    noUpper (cleanVal x ft) := by
  intro c hc
  rcases cleanVal_chars x ft c hc with h | h | h
  · exact hx c h
  · subst h
    decide
  · omega

theorem noUpper_stripL (l : List Char) (h : noUpper l) : noUpper (stripL l) :=
  fun c hc => h c (stripL_subset l c hc)

theorem noUpper_extractSpan (s : List Char) (a b : Nat) (h : noUpper s) :
    noUpper (extractSpan s a b) :=
  fun c hc => h c (extractSpan_subset s a b c hc)

theorem noUpper_reSub_nil (fl : Flags) (r : RE) (s : List Char) (h : noUpper s) :
    noUpper (reSub fl r [] s) := by
  intro c hc
  rcases reSub_chars fl r [] s c hc with h1 | h1
  · exact h c h1
  · simp at h1

/-- Any value accepted by the per-field pattern pass over the
lower-cased text contains no ASCII uppercase letter. -/
theorem extractField_noUpper (ft : FieldT) (raw : List Char) (v : List Char)
    (h : extractField ft (fieldPatterns ft) (lowerText raw) = .ok (some v)) :
    noUpper v := by
  obtain ⟨hne, a, b, rfl⟩ := extractField_ok_some ft _ _ v h
  exact noUpper_cleanVal _ ft (noUpper_stripL _ (noUpper_extractSpan _ a b (lowerText_noUpper raw)))


/-- C10: every field value accepted during the per-field pattern pass
contains no ASCII uppercase letter, because matching runs against the
lower-cased text and cleaning never changes letter case; the values
post-processing derives from the degree string (specialization, the
rewritten degree) are therefore also uppercase-free.  Only institution,
when filled in by post-processing from the ORIGINAL raw text, may
retain capitalization — and when institution was accepted in the
per-field pass it is kept verbatim and is uppercase-free. -/
theorem c10_lowercase_invariant (raw : List Char) (m : Credentials)
    (h : parseCredentials raw = .ok m) :
    (∀ v, m.name = some v → noUpper v) ∧
    (∀ v, m.roll_number = some v → noUpper v) ∧
    (∀ v, m.degree = some v → noUpper v) ∧
    (∀ v, m.issue_year = some v → noUpper v) ∧
    (∀ v, m.grade = some v → noUpper v) ∧
    (∀ v, m.certificate_number = some v → noUpper v) ∧
    (∀ v, m.specialization = some v → noUpper v) ∧
    (∀ v, extractField .institution (fieldPatterns .institution) (lowerText raw) = .ok (some v) →
      m.institution = some v ∧ noUpper v) := by
  obtain ⟨n, r, d, y, i, g, ce, en, er, ed, ey, ei, eg, ece, hm⟩ := parseCredentials_ok_elim raw m h
  have hm2 : m = postSpec (postInst ⟨n, r, d, y, i, g, none, ce⟩ raw) := hm
  obtain ⟨pi1, pi2, pi3, pi4, pi5, pi6, pi7⟩ := postInst_fields ⟨n, r, d, y, i, g, none, ce⟩ raw
  obtain ⟨ps1, ps2, ps3, ps4, ps5, ps6⟩ := postSpec_fields (postInst ⟨n, r, d, y, i, g, none, ce⟩ raw)
  dsimp only at pi1 pi2 pi3 pi4 pi5 pi6 pi7
  refine ⟨?_, ?_, ?_, ?_, ?_, ?_, ?_, ?_⟩
  · intro v hv
    rw [hm2, ps1, pi1] at hv
    rw [hv] at en
    exact extractField_noUpper .name raw v en
  · intro v hv
    rw [hm2, ps2, pi2] at hv
    rw [hv] at er
    exact extractField_noUpper .roll_number raw v er
  · intro v hv
    rcases postSpec_spec_degree (postInst ⟨n, r, d, y, i, g, none, ce⟩ raw) with ⟨hd1, _⟩ | ⟨dd, a, b, hdd, hsp, hdeg⟩
    · rw [hm2, hd1, pi3] at hv
      rw [hv] at ed
      exact extractField_noUpper .degree raw v ed
    · rw [hm2, hdeg] at hv
      have hddv : d = some dd := by rw [← pi3]; exact hdd
      rw [hddv] at ed
      have hddU : noUpper dd := extractField_noUpper .degree raw dd ed
      rw [Option.some.injEq] at hv
      subst hv
      exact noUpper_stripL _ (noUpper_reSub_nil _ _ _ hddU)
  · intro v hv
    rw [hm2, ps3, pi4] at hv
    rw [hv] at ey
    exact extractField_noUpper .issue_year raw v ey
  · intro v hv
    rw [hm2, ps5, pi5] at hv
    rw [hv] at eg
    exact extractField_noUpper .grade raw v eg
  · intro v hv
    rw [hm2, ps6, pi7] at hv
    rw [hv] at ece
    exact extractField_noUpper .certificate_number raw v ece
  · intro v hv
    rcases postSpec_spec_degree (postInst ⟨n, r, d, y, i, g, none, ce⟩ raw) with ⟨_, hs1⟩ | ⟨dd, a, b, hdd, hsp, hdeg⟩
    · rw [hm2, hs1, pi6] at hv
      simp at hv
    · rw [hm2, hsp] at hv
      have hddv : d = some dd := by rw [← pi3]; exact hdd
      rw [hddv] at ed
      have hddU : noUpper dd := extractField_noUpper .degree raw dd ed
      rw [Option.some.injEq] at hv
      subst hv
      exact noUpper_stripL _ (noUpper_extractSpan _ a b hddU)
  · intro v hv
    have hiv : Except.ok (ε := String) i = .ok (some v) := ei.symm.trans hv
    rw [Except.ok.injEq] at hiv
    obtain ⟨hne, -⟩ := extractField_ok_some .institution _ _ v hv
    have htr : optTruthy ((⟨n, r, d, y, i, g, none, ce⟩ : Credentials).institution) = true := by
      show optTruthy i = true
      rw [hiv]
      simp [optTruthy]
      exact hne
    constructor
    · rw [hm2, ps4, postInst_institution_truthy _ _ htr]
      show i = some v
      exact hiv
    · exact extractField_noUpper .institution raw v hv

/-- The concrete raw text used as the C10 witness: mixed-case input in
which the institution is accepted in the per-field pass. -/
def c10Raw : List Char := "From ABC University x".data

/-- C10 witness: on the mixed-case text "From ABC University x" the
theorem applies with the computed parse; the degree value
"abc university x" and the per-field institution value
"from abc university x" are uppercase-free. -/
theorem c10_lowercase_invariant_witness :
    noUpper ("abc university x".data) ∧ noUpper ("from abc university x".data) := by
  have h := c10_lowercase_invariant c10Raw
    ⟨none, none, some "abc university x".data, none, some "from abc university x".data,
     none, none, none⟩ (by decide)
  exact ⟨h.2.2.1 _ rfl, (h.2.2.2.2.2.2.2 "from abc university x".data (by decide)).2⟩


/-! ### One-step equations of the matcher (definitional) -/

theorem run_zero (fl : Flags) (k : List KItem) (st : MSt) : run fl 0 k st = [] := rfl

theorem run_eps (fl : Flags) (f : Nat) (k : List KItem) (st : MSt) :
    run fl (f + 1) (.re .eps :: k) st = run fl f k st := rfl

theorem run_seq (fl : Flags) (f : Nat) (a b : RE) (k : List KItem) (st : MSt) :
    run fl (f + 1) (.re (.seq a b) :: k) st = run fl f (.re a :: .re b :: k) st := rfl

theorem run_alt (fl : Flags) (f : Nat) (a b : RE) (k : List KItem) (st : MSt) :
    run fl (f + 1) (.re (.alt a b) :: k) st =
      run fl f (.re a :: k) st ++ run fl f (.re b :: k) st := rfl

theorem run_group_eq (fl : Flags) (f : Nat) (a : RE) (k : List KItem) (st : MSt) :
    run fl (f + 1) (.re (.group a) :: k) st =
      run fl f (.re a :: .closeG st.pos :: k) st := rfl

theorem run_closeG_eq (fl : Flags) (f : Nat) (s : Nat) (k : List KItem) (st : MSt) :
    run fl (f + 1) (.closeG s :: k) st =
      run fl f k { st with g1 := some (s, st.pos) } := rfl

theorem run_cls_eq (fl : Flags) (f : Nat) (neg : Bool) (items : List CItem)
    (k : List KItem) (st : MSt) :
    run fl (f + 1) (.re (.cls neg items) :: k) st =
      (match st.rem with
       | [] => []
       | c :: rest =>
         if clsMatch fl neg items c then
           run fl f k ⟨rest, st.pos + 1, some c, st.g1⟩
         else []) := rfl

theorem run_bol_eq (fl : Flags) (f : Nat) (k : List KItem) (st : MSt) :
    run fl (f + 1) (.re .bol :: k) st =
      (if st.pos == 0 || (fl.ml && st.prev == some '\n') then run fl f k st else []) := rfl

theorem run_eol_eq (fl : Flags) (f : Nat) (k : List KItem) (st : MSt) :
    run fl (f + 1) (.re .eol :: k) st =
      (match st.rem with
       | [] => run fl f k st
       | c :: rest =>
         if (fl.ml && c == '\n') || (!fl.ml && c == '\n' && rest.isEmpty) then
           run fl f k st
         else []) := rfl

theorem ne_nil_append {α : Type} (l1 l2 : List α) (h : l1 ++ l2 ≠ []) :
    l1 ≠ [] ∨ l2 ≠ [] := by
  rcases l1 with _ | ⟨x, xs⟩
  · right
    simpa using h
  · left
    simp

/-! ### Claim C9: soundness of the roll_number validation regex -/

/-- Membership in the character class `[a-zA-Z0-9\/\-]`. -/
def isRollChar (c : Char) : Bool :=
  ('a' ≤ c && c ≤ 'z') || ('A' ≤ c && c ≤ 'Z') || ('0' ≤ c && c ≤ '9') || c = '/' || c = '-'

theorem clsMatch_rollChar (c : Char) :
    clsMatch noFlags false [.range 'a' 'z', .range 'A' 'Z', .range '0' '9',
      .single '/', .single '-'] c = isRollChar c := by
  simp [clsMatch, itemMatch, isRollChar, noFlags, List.any_cons, List.any_nil,
    Bool.or_false, Bool.or_assoc]

/-- Python-semantics full match of `^[a-zA-Z0-9\/\-]{2,20}$`: the string
(`$` also accepts a single trailing newline) consists of 2 to 20 class
characters. -/
def rollOK (w : List Char) : Prop :=
  2 ≤ w.length ∧ w.length ≤ 20 ∧ ∀ c ∈ w, isRollChar c = true

def pyRollMatched (w : List Char) : Prop :=
  rollOK w ∨ ∃ u, w = u ++ ['\n'] ∧ rollOK u

theorem seq_eol_eps_sound (f : Nat) (st : MSt)
    (h : run noFlags f [.re (.seq .eol .eps)] st ≠ []) :
    st.rem = [] ∨ st.rem = ['\n'] := by
  cases f with
  | zero => rw [run_zero] at h; exact absurd rfl h
  | succ f =>
    rw [run_seq] at h
    cases f with
    | zero => rw [run_zero] at h; exact absurd rfl h
    | succ f =>
      rw [run_eol_eq] at h
      cases hrem : st.rem with
      | nil => exact Or.inl rfl
      | cons c rest =>
        simp only [hrem] at h
        by_cases hc : ((noFlags.ml && c == '\n') || (!noFlags.ml && c == '\n' && rest.isEmpty)) = true
        · simp only [noFlags, Bool.false_and, Bool.false_or, Bool.not_false, Bool.true_and,
            Bool.and_eq_true, beq_iff_eq, List.isEmpty_iff] at hc
          right
          rw [hc.1, hc.2]
        · rw [if_neg hc] at h
          exact absurd rfl h

theorem rupto_roll_sound (n : Nat) :
    ∀ f st, run noFlags f (.re (rupto n clsRollChar) :: [.re (.seq .eol .eps)]) st ≠ [] →
      ∃ k, k ≤ n ∧ (∀ c ∈ st.rem.take k, isRollChar c = true) ∧
        (st.rem.drop k = [] ∨ st.rem.drop k = ['\n']) := by
  induction n with
  | zero =>
    intro f st h
    cases f with
    | zero => rw [run_zero] at h; exact absurd rfl h
    | succ f =>
      rw [show rupto 0 clsRollChar = RE.eps from rfl, run_eps] at h
      exact ⟨0, Nat.le_refl 0, by simp, by simpa using seq_eol_eps_sound f st h⟩
  | succ n ih =>
    intro f st h
    cases f with
    | zero => rw [run_zero] at h; exact absurd rfl h
    | succ f =>
      rw [show rupto (n + 1) clsRollChar =
            RE.alt (.seq clsRollChar (rupto n clsRollChar)) .eps from rfl,
          run_alt] at h
      rcases ne_nil_append _ _ h with h1 | h2
      · cases f with
        | zero => rw [run_zero] at h1; exact absurd rfl h1
        | succ f2 =>
          rw [run_seq] at h1
          cases f2 with
          | zero => rw [run_zero] at h1; exact absurd rfl h1
          | succ f3 =>
            rw [show clsRollChar = RE.cls false [.range 'a' 'z', .range 'A' 'Z',
                  .range '0' '9', .single '/', .single '-'] from rfl, run_cls_eq] at h1
            cases hrem : st.rem with
            | nil => simp [hrem] at h1
            | cons c rest =>
              simp only [hrem] at h1
              by_cases hc : clsMatch noFlags false [.range 'a' 'z', .range 'A' 'Z',
                  .range '0' '9', .single '/', .single '-'] c = true
              · rw [if_pos hc] at h1
                obtain ⟨k, hk, hall, hend⟩ := ih f3 ⟨rest, st.pos + 1, some c, st.g1⟩ h1
                dsimp only at hall hend
                refine ⟨k + 1, Nat.succ_le_succ hk, ?_, ?_⟩
                · intro x hx
                  rw [List.take_succ_cons] at hx
                  rcases List.mem_cons.mp hx with hx | hx
                  · subst hx
                    rw [← clsMatch_rollChar]
                    exact hc
                  · exact hall x hx
                · rw [List.drop_succ_cons]
                  exact hend
              · rw [if_neg hc] at h1
                exact absurd rfl h1
      · cases f with
        | zero => rw [run_zero] at h2; exact absurd rfl h2
        | succ f2 =>
          rw [run_eps] at h2
          exact ⟨0, Nat.zero_le _, by simp, by simpa using seq_eol_eps_sound f2 st h2⟩

/-- Soundness of `re.match(r'^[a-zA-Z0-9\/\-]{2,20}$', s)`: success
implies that `s` is 2 to 20 roll characters (with Python's dollar
tolerating one trailing newline). -/
theorem reMatchAt0_rollFull_sound (s : List Char)
    (h : (reMatchAt0 noFlags rollFull s).isSome = true) :
    pyRollMatched s := by
  unfold reMatchAt0 at h
  have hrun : run noFlags (fuelFor s rollFull) [.re rollFull] ⟨s, 0, none, none⟩ ≠ [] := by
    intro hnil
    rw [hnil] at h
    simp at h
  clear h
  generalize hF : fuelFor s rollFull = F at hrun
  clear hF
  cases F with
  | zero => rw [run_zero] at hrun; exact absurd rfl hrun
  | succ f1 =>
  rw [show rollFull = RE.seq .bol (.seq (.seq clsRollChar (.seq clsRollChar .eps))
        (.seq (rupto 18 clsRollChar) (.seq .eol .eps))) from rfl, run_seq] at hrun
  cases f1 with
  | zero => rw [run_zero] at hrun; exact absurd rfl hrun
  | succ f2 =>
  rw [run_bol_eq, if_pos (by rfl)] at hrun
  cases f2 with
  | zero => rw [run_zero] at hrun; exact absurd rfl hrun
  | succ f3 =>
  rw [run_seq] at hrun
  cases f3 with
  | zero => rw [run_zero] at hrun; exact absurd rfl hrun
  | succ f4 =>
  rw [run_seq] at hrun
  cases f4 with
  | zero => rw [run_zero] at hrun; exact absurd rfl hrun
  | succ f5 =>
  rw [show clsRollChar = RE.cls false [.range 'a' 'z', .range 'A' 'Z',
        .range '0' '9', .single '/', .single '-'] from rfl, run_cls_eq] at hrun
  cases hs1 : s with
  | nil => rw [hs1] at hrun; simp at hrun
  | cons c1 t1 =>
  rw [hs1] at hrun
  dsimp only at hrun
  by_cases hc1 : clsMatch noFlags false [.range 'a' 'z', .range 'A' 'Z',
      .range '0' '9', .single '/', .single '-'] c1 = true
  case neg => rw [if_neg hc1] at hrun; exact absurd rfl hrun
  case pos =>
  rw [if_pos hc1] at hrun
  cases f5 with
  | zero => rw [run_zero] at hrun; exact absurd rfl hrun
  | succ f6 =>
  rw [run_seq] at hrun
  cases f6 with
  | zero => rw [run_zero] at hrun; exact absurd rfl hrun
  | succ f7 =>
  rw [run_cls_eq] at hrun
  cases ht1 : t1 with
  | nil => rw [ht1] at hrun; simp at hrun
  | cons c2 t2 =>
  rw [ht1] at hrun
  dsimp only at hrun
  by_cases hc2 : clsMatch noFlags false [.range 'a' 'z', .range 'A' 'Z',
      .range '0' '9', .single '/', .single '-'] c2 = true
  case neg => rw [if_neg hc2] at hrun; exact absurd rfl hrun
  case pos =>
  rw [if_pos hc2] at hrun
  cases f7 with
  | zero => rw [run_zero] at hrun; exact absurd rfl hrun
  | succ f8 =>
  rw [run_eps] at hrun
  cases f8 with
  | zero => rw [run_zero] at hrun; exact absurd rfl hrun
  | succ f9 =>
  rw [run_seq] at hrun
  obtain ⟨k, hk, hall, hend⟩ := rupto_roll_sound 18 f9 ⟨t2, 0 + 1 + 1, some c2, none⟩ hrun
  dsimp only at hall hend
  have hc1r : isRollChar c1 = true := by rw [← clsMatch_rollChar]; exact hc1
  have hc2r : isRollChar c2 = true := by rw [← clsMatch_rollChar]; exact hc2
  rcases hend with hend | hend
  · left
    have hlen : t2.length ≤ k := by
      have := congrArg List.length hend
      simp [List.length_drop] at this
      omega
    have ht2take : t2.take k = t2 := List.take_of_length_le hlen
    refine ⟨by simp, ?_, ?_⟩
    · simp only [List.length_cons]
      omega
    · intro x hx
      rcases List.mem_cons.mp hx with hx | hx
      · subst hx; exact hc1r
      · rcases List.mem_cons.mp hx with hx | hx
        · subst hx; exact hc2r
        · apply hall
          rw [ht2take]
          exact hx
  · right
    refine ⟨c1 :: c2 :: t2.take k, ?_, ?_⟩
    · have hta := List.take_append_drop k t2
      rw [hend] at hta
      conv_rhs => rw [List.cons_append, List.cons_append, hta]
    · refine ⟨by simp, ?_, ?_⟩
      · have hlt : (t2.take k).length ≤ k := List.length_take_le k t2
        simp only [List.length_cons]
        omega
      · intro x hx
        rcases List.mem_cons.mp hx with hx | hx
        · subst hx; exact hc1r
        · rcases List.mem_cons.mp hx with hx | hx
          · subst hx; exact hc2r
          · exact hall x hx


/-- A name value that survives cleaning is at most 50 characters (the
honorific-stripped, length-checked result). -/
theorem cleanVal_name_len (x v : List Char) (hcv : cleanVal x .name = v) (hne : v ≠ []) :
    v.length ≤ 50 := by
  simp only [cleanVal] at hcv
  split at hcv
  · exact absurd hcv.symm hne
  · split at hcv
    · exact absurd hcv.symm hne
    · rename_i hlen
      rw [← hcv]
      omega

/-- A roll_number value that survives cleaning passed the
`^[a-zA-Z0-9\/\-]{2,20}$` full match. -/
theorem cleanVal_roll_sound (x v : List Char) (hcv : cleanVal x .roll_number = v)
    (hne : v ≠ []) : pyRollMatched v := by
  simp only [cleanVal] at hcv
  split at hcv
  · exact absurd hcv.symm hne
  · split at hcv
    · rename_i hmatch
      rw [← hcv]
      exact reMatchAt0_rollFull_sound _ hmatch
    · exact absurd hcv.symm hne

/-- The canonical-year predicate of the claim: a 4-digit decimal string
whose value lies in [1950, 2030]. -/
def isCanonicalYear (v : List Char) : Prop :=
  v.length = 4 ∧ (∀ c ∈ v, c.isDigit = true) ∧ 1950 ≤ digitsToNat v ∧ digitsToNat v ≤ 2030

instance (v : List Char) : Decidable (isCanonicalYear v) := by
  unfold isCanonicalYear
  infer_instance

theorem year_canonical (y : Nat) (h1 : 1950 ≤ y) (h2 : y ≤ 2030) :
    isCanonicalYear (natToDec y) := by
  interval_cases y <;> exact (by decide)

/-- An issue_year value that survives cleaning is a canonical in-range
4-digit year. -/
theorem cleanVal_year_sound (x v : List Char) (hcv : cleanVal x .issue_year = v)
    (hne : v ≠ []) : isCanonicalYear v := by
  simp only [cleanVal] at hcv
  split at hcv
  · exact absurd hcv.symm hne
  · split at hcv
    · split at hcv
      · rename_i hrange
        simp only [Bool.and_eq_true, decide_eq_true_eq] at hrange
        rw [← hcv]
        exact year_canonical _ hrange.1 hrange.2
      · exact absurd hcv.symm hne
    · exact absurd hcv.symm hne

/-- C9: in every successfully parsed field map, a present name has
length at most 50 (after honorific stripping), a present roll_number
passed the full match `^[a-zA-Z0-9\/\-]{2,20}$`, and a present
issue_year is a canonical 4-digit year in [1950, 2030]; post-processing
never touches these three fields, so the parser never stores a rejected
candidate (for the remaining fields the generic cleaning imposes no
extra rule to check). -/
theorem c9_validation_invariant (raw : List Char) (m : Credentials)
    (h : parseCredentials raw = .ok m) :
    (∀ v, m.name = some v → v.length ≤ 50) ∧
    (∀ v, m.roll_number = some v → pyRollMatched v) ∧
    (∀ v, m.issue_year = some v → isCanonicalYear v) := by
  obtain ⟨n, r, d, y, i, g, ce, en, er, ed, ey, ei, eg, ece, hm⟩ := parseCredentials_ok_elim raw m h
  have hm2 : m = postSpec (postInst ⟨n, r, d, y, i, g, none, ce⟩ raw) := hm
  obtain ⟨pi1, pi2, pi3, pi4, pi5, pi6, pi7⟩ := postInst_fields ⟨n, r, d, y, i, g, none, ce⟩ raw
  obtain ⟨ps1, ps2, ps3, ps4, ps5, ps6⟩ := postSpec_fields (postInst ⟨n, r, d, y, i, g, none, ce⟩ raw)
  dsimp only at pi1 pi2 pi4
  refine ⟨?_, ?_, ?_⟩
  · intro v hv
    rw [hm2, ps1, pi1] at hv
    rw [hv] at en
    obtain ⟨hne, a, b, heq⟩ := extractField_ok_some .name _ _ v en
    exact cleanVal_name_len _ v heq.symm hne
  · intro v hv
    rw [hm2, ps2, pi2] at hv
    rw [hv] at er
    obtain ⟨hne, a, b, heq⟩ := extractField_ok_some .roll_number _ _ v er
    exact cleanVal_roll_sound _ v heq.symm hne
  · intro v hv
    rw [hm2, ps3, pi4] at hv
    rw [hv] at ey
    obtain ⟨hne, a, b, heq⟩ := extractField_ok_some .issue_year _ _ v ey
    exact cleanVal_year_sound _ v heq.symm hne

/-- C9 witness: on "name: bob roll no: cs-42 year 2015" the parser
stores name "bob roll no" (length 11), roll_number "cs-42" and
issue_year "2015"; the invariant instantiates to these values. -/
theorem c9_validation_invariant_witness :
    "bob roll no".data.length ≤ 50 ∧ pyRollMatched "cs-42".data ∧
      isCanonicalYear "2015".data := by
  have h := c9_validation_invariant "name: bob roll no: cs-42 year 2015".data
    ⟨some "bob roll no".data, some "cs-42".data, some "bob roll no".data, some "2015".data,
     none, none, none, none⟩ (by decide)
  exact ⟨h.1 _ rfl, h.2.1 _ rfl, h.2.2 _ rfl⟩


/-! ### The issue_year cleaning: leftmost-window characterization -/

theorem run_done (fl : Flags) (f : Nat) (st : MSt) : run fl (f + 1) [] st = [st] := rfl

theorem searchLoop_succ (fl : Flags) (r : RE) (fuel n : Nat) (st : MSt) :
    searchLoop fl r fuel (n + 1) st =
      (match run fl fuel [.re r] st with
       | res :: _ => some ⟨st.pos, res.pos, res.g1⟩
       | [] =>
         match st.rem with
         | [] => none
         | c :: rest => searchLoop fl r fuel n ⟨rest, st.pos + 1, some c, none⟩) := rfl

theorem clsMatch_single (x c : Char) :
    clsMatch noFlags false [.single x] c = decide (c = x) := by
  simp [clsMatch, itemMatch, noFlags]

theorem clsMatch_digit (c : Char) :
    clsMatch noFlags false [.sdigit] c = c.isDigit := by
  simp [clsMatch, itemMatch, noFlags]

theorem run_single_cls (f : Nat) (x : Char) (k : List KItem) (rem : List Char)
    (p : Nat) (pr : Option Char) (g : Option (Nat × Nat)) :
    run noFlags (f + 1) (.re (.cls false [.single x]) :: k) ⟨rem, p, pr, g⟩ =
      (match rem with
       | [] => []
       | c :: rest => if c = x then run noFlags f k ⟨rest, p + 1, some c, g⟩ else []) := by
  rw [run_cls_eq]
  cases rem with
  | nil => rfl
  | cons c rest =>
    dsimp only
    by_cases h : c = x
    · simp [clsMatch_single, h]
    · simp [clsMatch_single, h]

theorem run_digit_cls (f : Nat) (k : List KItem) (rem : List Char)
    (p : Nat) (pr : Option Char) (g : Option (Nat × Nat)) :
    run noFlags (f + 1) (.re (.cls false [.sdigit]) :: k) ⟨rem, p, pr, g⟩ =
      (match rem with
       | [] => []
       | c :: rest => if c.isDigit = true then run noFlags f k ⟨rest, p + 1, some c, g⟩
         else []) := by
  rw [run_cls_eq]
  cases rem with
  | nil => rfl
  | cons c rest =>
    dsimp only
    by_cases h : c.isDigit = true
    · simp [clsMatch_digit, h]
    · simp [clsMatch_digit, h]

/-- One alternative of `(19|20)` (literal characters `x` then `y`)
followed by the `\d\{2\}` tail, with the group-close bookkeeping of the
capture group opened at `p` in between. -/
theorem run_year_branch (f : Nat) (x y : Char) (rem : List Char) (p : Nat)
    (pr : Option Char) (g : Option (Nat × Nat)) :
    run noFlags (f + 15)
      (.re (.seq (.cls false [.single x]) (.seq (.cls false [.single y]) .eps)) ::
        .closeG p ::
        [.re (.seq (.seq (.cls false [.sdigit]) (.seq (.cls false [.sdigit]) .eps)) .eps)])
      ⟨rem, p, pr, g⟩ =
      (match rem with
       | d1 :: d2 :: d3 :: d4 :: rest =>
         if d1 = x ∧ d2 = y ∧ d3.isDigit = true ∧ d4.isDigit = true then
           [⟨rest, p + 4, some d4, some (p, p + 2)⟩]
         else []
       | _ => []) := by
  rw [run_seq, run_single_cls]
  rcases rem with _ | ⟨d1, t1⟩
  · rfl
  · dsimp only
    by_cases h1 : d1 = x
    case neg =>
      rw [if_neg h1]
      rcases t1 with _ | ⟨d2, _ | ⟨d3, _ | ⟨d4, rest⟩⟩⟩ <;> simp [h1]
    case pos =>
      rw [if_pos h1, run_seq, run_single_cls]
      rcases t1 with _ | ⟨d2, t2⟩
      · rfl
      · dsimp only
        by_cases h2 : d2 = y
        case neg =>
          rw [if_neg h2]
          rcases t2 with _ | ⟨d3, _ | ⟨d4, rest⟩⟩ <;> simp [h1, h2]
        case pos =>
          rw [if_pos h2, run_eps, run_closeG_eq, run_seq, run_seq]
          dsimp only
          rw [run_digit_cls]
          rcases t2 with _ | ⟨d3, t3⟩
          · rfl
          · dsimp only
            by_cases h3 : d3.isDigit = true
            case neg =>
              rw [if_neg h3]
              rcases t3 with _ | ⟨d4, rest⟩ <;> simp [h1, h2, h3]
            case pos =>
              rw [if_pos h3, run_seq, run_digit_cls]
              rcases t3 with _ | ⟨d4, t4⟩
              · rfl
              · dsimp only
                by_cases h4 : d4.isDigit = true
                case neg =>
                  rw [if_neg h4]
                  simp [h1, h2, h3, h4]
                case pos =>
                  rw [if_pos h4, run_eps, run_eps, run_done,
                      if_pos ⟨h1, h2, h3, h4⟩]

/-- Exact behaviour of the matcher on `(19|20)\d\{2\}` at one position:
it succeeds exactly when the next four characters form a `19`- or
`20`-prefixed digit window. -/
theorem run_yearFind (f : Nat) (rem : List Char) (p : Nat) (pr : Option Char)
    (g : Option (Nat × Nat)) :
    run noFlags (f + 18) [.re yearFind] ⟨rem, p, pr, g⟩ =
      (match rem with
       | d1 :: d2 :: d3 :: d4 :: rest =>
         if ((d1 = '1' ∧ d2 = '9') ∨ (d1 = '2' ∧ d2 = '0')) ∧
             d3.isDigit = true ∧ d4.isDigit = true then
           [⟨rest, p + 4, some d4, some (p, p + 2)⟩]
         else []
       | _ => []) := by
  rw [show yearFind = RE.seq
        (.group (.alt (.seq (.cls false [.single '1']) (.seq (.cls false [.single '9']) .eps))
                      (.seq (.cls false [.single '2']) (.seq (.cls false [.single '0']) .eps))))
        (.seq (.seq (.cls false [.sdigit]) (.seq (.cls false [.sdigit]) .eps)) .eps) from rfl,
      run_seq, run_group_eq]
  dsimp only
  rw [run_alt, run_year_branch, run_year_branch]
  rcases rem with _ | ⟨d1, _ | ⟨d2, _ | ⟨d3, _ | ⟨d4, rest⟩⟩⟩⟩
  · rfl
  · rfl
  · rfl
  · rfl
  · dsimp only
    by_cases h3 : d3.isDigit = true
    case neg => simp [h3]
    case pos =>
      by_cases h4 : d4.isDigit = true
      case neg => simp [h4]
      case pos =>
        by_cases h19 : d1 = '1' ∧ d2 = '9'
        · have h20 : ¬(d1 = '2' ∧ d2 = '0' ∧ d3.isDigit = true ∧ d4.isDigit = true) := by
            rintro ⟨ha, -⟩
            rw [h19.1] at ha
            exact absurd ha (by decide)
          rw [if_pos ⟨h19.1, h19.2, h3, h4⟩, if_neg h20,
              if_pos ⟨Or.inl h19, h3, h4⟩]
          rfl
        · by_cases h20 : d1 = '2' ∧ d2 = '0'
          · have h19n : ¬(d1 = '1' ∧ d2 = '9' ∧ d3.isDigit = true ∧ d4.isDigit = true) := by
              rintro ⟨ha, hb, -⟩
              exact h19 ⟨ha, hb⟩
            rw [if_neg h19n, if_pos ⟨h20.1, h20.2, h3, h4⟩,
                if_pos ⟨Or.inr h20, h3, h4⟩]
            rfl
          · have h19n : ¬(d1 = '1' ∧ d2 = '9' ∧ d3.isDigit = true ∧ d4.isDigit = true) := by
              rintro ⟨ha, hb, -⟩
              exact h19 ⟨ha, hb⟩
            have h20n : ¬(d1 = '2' ∧ d2 = '0' ∧ d3.isDigit = true ∧ d4.isDigit = true) := by
              rintro ⟨ha, hb, -⟩
              exact h20 ⟨ha, hb⟩
            have hor : ¬(((d1 = '1' ∧ d2 = '9') ∨ (d1 = '2' ∧ d2 = '0')) ∧
                d3.isDigit = true ∧ d4.isDigit = true) := by
              rintro ⟨hab, -⟩
              rcases hab with hab | hab
              · exact h19 hab
              · exact h20 hab
            rw [if_neg h19n, if_neg h20n, if_neg hor]
            rfl

/-- Spec-side condition: the string starts with a `(19|20)\d\{2\}`
window (a 4-digit substring beginning with 19 or 20). -/
def yearCond : List Char → Bool
  | d1 :: d2 :: d3 :: d4 :: _ =>
    ((d1 = '1' && d2 = '9') || (d1 = '2' && d2 = '0')) && d3.isDigit && d4.isDigit
  | _ => false

/-- Spec-side reference scan: index of the leftmost `(19|20)\d\{2\}`
window of the string, scanning left to right (the spec's "search the
cleaned value for a 4-digit pattern beginning with 19 or 20"). -/
def yearScanIdx : List Char → Option Nat
  | [] => none
  | c :: rest =>
    if yearCond (c :: rest) = true then some 0
    else (yearScanIdx rest).map (· + 1)

theorem yearScanIdx_cons (c : Char) (rest : List Char) :
    yearScanIdx (c :: rest) =
      if yearCond (c :: rest) = true then some 0
      else (yearScanIdx rest).map (· + 1) := rfl

theorem yearCond_iff (d1 d2 d3 d4 : Char) (tail : List Char) :
    yearCond (d1 :: d2 :: d3 :: d4 :: tail) = true ↔
      ((d1 = '1' ∧ d2 = '9') ∨ (d1 = '2' ∧ d2 = '0')) ∧
        d3.isDigit = true ∧ d4.isDigit = true := by
  simp only [yearCond, Bool.and_eq_true, Bool.or_eq_true, decide_eq_true_eq]
  tauto

/-- The scanning loop of `re.search` agrees with the reference scan for
the year pattern. -/
theorem searchLoop_yearFind (s : List Char) :
    ∀ (p : Nat) (pr : Option Char) (f : Nat),
      searchLoop noFlags yearFind (f + 18) (s.length + 1) ⟨s, p, pr, none⟩ =
        (match yearScanIdx s with
         | some i => some ⟨p + i, p + i + 4, some (p + i, p + i + 2)⟩
         | none => none) := by
  induction s with
  | nil =>
    intro p pr f
    rw [searchLoop_succ, run_yearFind]
    rfl
  | cons c rest ih =>
    intro p pr f
    rw [searchLoop_succ, run_yearFind]
    rcases rest with _ | ⟨d2, _ | ⟨d3, _ | ⟨d4, tail⟩⟩⟩
    · dsimp only
      simp only [List.length_cons, List.length_nil] at ih ⊢
      rw [ih (p + 1) (some c) f, yearScanIdx_cons c [], if_neg (by simp [yearCond])]
      rfl
    · dsimp only
      simp only [List.length_cons, List.length_nil] at ih ⊢
      rw [ih (p + 1) (some c) f, yearScanIdx_cons c [d2], if_neg (by simp [yearCond])]
      cases hy : yearScanIdx [d2] with
      | none => rfl
      | some j =>
        dsimp only [Option.map]
        have e : p + 1 + j = p + (j + 1) := by omega
        rw [e]
    · dsimp only
      simp only [List.length_cons, List.length_nil] at ih ⊢
      rw [ih (p + 1) (some c) f, yearScanIdx_cons c [d2, d3], if_neg (by simp [yearCond])]
      cases hy : yearScanIdx [d2, d3] with
      | none => rfl
      | some j =>
        dsimp only [Option.map]
        have e : p + 1 + j = p + (j + 1) := by omega
        rw [e]
    · by_cases hc : ((c = '1' ∧ d2 = '9') ∨ (c = '2' ∧ d2 = '0')) ∧
          d3.isDigit = true ∧ d4.isDigit = true
      · dsimp only
        rw [if_pos hc, yearScanIdx_cons c (d2 :: d3 :: d4 :: tail),
            if_pos ((yearCond_iff c d2 d3 d4 tail).mpr hc)]
        simp
      · dsimp only
        rw [if_neg hc]
        dsimp only
        simp only [List.length_cons, List.length_nil] at ih ⊢
        rw [ih (p + 1) (some c) f, yearScanIdx_cons c (d2 :: d3 :: d4 :: tail),
            if_neg (fun hb => hc ((yearCond_iff c d2 d3 d4 tail).mp hb))]
        cases hy : yearScanIdx (d2 :: d3 :: d4 :: tail) with
        | none => rfl
        | some j =>
          dsimp only [Option.map]
          have e : p + 1 + j = p + (j + 1) := by omega
          rw [e]

/-- `re.search` of `(19|20)\d\{2\}` finds exactly the leftmost window
of the reference scan, the match spanning four characters. -/
theorem reSearch_yearFind (s : List Char) :
    reSearch noFlags yearFind s =
      (match yearScanIdx s with
       | some i => some ⟨i, i + 4, some (i, i + 2)⟩
       | none => none) := by
  unfold reSearch
  obtain ⟨f0, hf⟩ : ∃ f0, fuelFor s yearFind = f0 + 18 := by
    refine ⟨fuelFor s yearFind - 18, ?_⟩
    unfold fuelFor
    have h2 : 1 ≤ s.length + 2 := by omega
    have h3 : 64 ≤ 32 * (reSize yearFind + 2) := by decide
    have h4 : 32 * (reSize yearFind + 2) * 1 ≤ 32 * (reSize yearFind + 2) * (s.length + 2) :=
      Nat.mul_le_mul_left _ h2
    omega
  rw [hf, searchLoop_yearFind s 0 none f0]
  cases yearScanIdx s with
  | none => rfl
  | some i =>
    dsimp only
    have e : 0 + i = i := by omega
    rw [e]

/-- The leftmost window found by the reference scan really is a
`(19|20)\d\{2\}` window of the string. -/
theorem yearScanIdx_window (s : List Char) :
    ∀ i, yearScanIdx s = some i →
      ∃ d1 d2 d3 d4 tail, s.drop i = d1 :: d2 :: d3 :: d4 :: tail ∧
        ((d1 = '1' ∧ d2 = '9') ∨ (d1 = '2' ∧ d2 = '0')) ∧
          d3.isDigit = true ∧ d4.isDigit = true := by
  induction s with
  | nil =>
    intro i h
    simp [yearScanIdx] at h
  | cons c rest ih =>
    intro i h
    rw [yearScanIdx_cons] at h
    split at h
    · rename_i hb
      rcases rest with _ | ⟨d2, _ | ⟨d3, _ | ⟨d4, tail⟩⟩⟩
      · simp [yearCond] at hb
      · simp [yearCond] at hb
      · simp [yearCond] at hb
      · obtain rfl : i = 0 := by
          simp only [Option.some.injEq] at h
          omega
        obtain ⟨hor, h3, h4⟩ := (yearCond_iff c d2 d3 d4 tail).mp hb
        exact ⟨c, d2, d3, d4, tail, rfl, hor, h3, h4⟩
    · obtain ⟨j, hj, rfl⟩ : ∃ j, yearScanIdx rest = some j ∧ j + 1 = i := by
        cases hyr : yearScanIdx rest with
        | none => rw [hyr] at h; simp at h
        | some j =>
          rw [hyr] at h
          dsimp only [Option.map] at h
          simp only [Option.some.injEq] at h
          exact ⟨j, rfl, h⟩
      obtain ⟨d1, d2, d3, d4, tail, hdrop, hcond⟩ := ih j hj
      exact ⟨d1, d2, d3, d4, tail, by rw [List.drop_succ_cons]; exact hdrop, hcond⟩

theorem isDigit_toNat (c : Char) (h : c.isDigit = true) :
    48 ≤ c.toNat ∧ c.toNat ≤ 57 := by
  simp only [Char.isDigit, Bool.and_eq_true, decide_eq_true_eq] at h
  exact h

theorem natToDecAux_succ (f n : Nat) :
    natToDecAux (f + 1) n =
      if n < 10 then [Char.ofNat (48 + n)]
      else natToDecAux f (n / 10) ++ [Char.ofNat (48 + n % 10)] := rfl

/-- The rendering worker ignores the exact fuel once it exceeds the
number being rendered. -/
theorem natToDecAux_fuel (n : Nat) : ∀ f1 f2, n < f1 → n < f2 →
    natToDecAux f1 n = natToDecAux f2 n := by
  induction n using Nat.strong_induction_on with
  | _ n ih =>
    intro f1 f2 h1 h2
    obtain ⟨g1, rfl⟩ : ∃ g1, f1 = g1 + 1 := ⟨f1 - 1, by omega⟩
    obtain ⟨g2, rfl⟩ : ∃ g2, f2 = g2 + 1 := ⟨f2 - 1, by omega⟩
    rw [natToDecAux_succ, natToDecAux_succ]
    by_cases hn : n < 10
    · rw [if_pos hn, if_pos hn]
    · rw [if_neg hn, if_neg hn,
        ih (n / 10) (by omega) g1 (n / 10 + 1) (by omega) (by omega),
        ih (n / 10) (by omega) g2 (n / 10 + 1) (by omega) (by omega)]

/-- `str(year)` of a 4-digit number is its four decimal digits. -/
theorem natToDec_four (y : Nat) (h1 : 1000 ≤ y) (h2 : y < 10000) :
    natToDec y = [Char.ofNat (48 + y / 1000), Char.ofNat (48 + y / 100 % 10),
      Char.ofNat (48 + y / 10 % 10), Char.ofNat (48 + y % 10)] := by
  unfold natToDec
  rw [natToDecAux_succ, if_neg (by omega),
      natToDecAux_fuel (y / 10) y (y / 10 + 1) (by omega) (by omega),
      natToDecAux_succ, if_neg (by omega),
      natToDecAux_fuel (y / 10 / 10) (y / 10) (y / 10 / 10 + 1) (by omega) (by omega),
      natToDecAux_succ, if_neg (by omega),
      natToDecAux_fuel (y / 10 / 10 / 10) (y / 10 / 10) (y / 10 / 10 / 10 + 1)
        (by omega) (by omega),
      natToDecAux_succ, if_pos (by omega)]
  have e1 : y / 10 / 10 / 10 = y / 1000 := by omega
  have e3 : y / 10 / 10 = y / 100 := by omega
  rw [e1, e3]
  simp

/-- Round trip: rendering the numeric value of a `(19|20)\d\{2\}`
window reproduces the window verbatim. -/
theorem natToDec_window (d1 d2 d3 d4 : Char)
    (hcond : ((d1 = '1' ∧ d2 = '9') ∨ (d1 = '2' ∧ d2 = '0')) ∧
      d3.isDigit = true ∧ d4.isDigit = true) :
    natToDec (digitsToNat [d1, d2, d3, d4]) = [d1, d2, d3, d4] := by
  obtain ⟨hor, h3, h4⟩ := hcond
  obtain ⟨l3, r3⟩ := isDigit_toNat d3 h3
  obtain ⟨l4, r4⟩ := isDigit_toNat d4 h4
  have hd : digitsToNat [d1, d2, d3, d4] =
      (((0 * 10 + (d1.toNat - 48)) * 10 + (d2.toNat - 48)) * 10 + (d3.toNat - 48)) * 10 +
        (d4.toNat - 48) := rfl
  rcases hor with ⟨e1, e2⟩ | ⟨e1, e2⟩ <;> subst e1 <;> subst e2 <;> rw [hd] <;>
    simp only [show ('1' : Char).toNat = 49 from rfl, show ('9' : Char).toNat = 57 from rfl,
      show ('2' : Char).toNat = 50 from rfl, show ('0' : Char).toNat = 48 from rfl]
  · rw [natToDec_four _ (by omega) (by omega)]
    have g1 : (((0 * 10 + (49 - 48)) * 10 + (57 - 48)) * 10 + (d3.toNat - 48)) * 10 +
        (d4.toNat - 48) = 1900 + (d3.toNat - 48) * 10 + (d4.toNat - 48) := by omega
    rw [g1]
    have g2 : (1900 + (d3.toNat - 48) * 10 + (d4.toNat - 48)) / 1000 = 1 := by omega
    have g3 : (1900 + (d3.toNat - 48) * 10 + (d4.toNat - 48)) / 100 % 10 = 9 := by omega
    have g4 : (1900 + (d3.toNat - 48) * 10 + (d4.toNat - 48)) / 10 % 10 = d3.toNat - 48 := by
      omega
    have g5 : (1900 + (d3.toNat - 48) * 10 + (d4.toNat - 48)) % 10 = d4.toNat - 48 := by omega
    rw [g2, g3, g4, g5]
    have g6 : 48 + (d3.toNat - 48) = d3.toNat := by omega
    have g7 : 48 + (d4.toNat - 48) = d4.toNat := by omega
    rw [g6, g7, Char.ofNat_toNat, Char.ofNat_toNat,
        show Char.ofNat (48 + 1) = '1' from by decide,
        show Char.ofNat (48 + 9) = '9' from by decide]
  · rw [natToDec_four _ (by omega) (by omega)]
    have g1 : (((0 * 10 + (50 - 48)) * 10 + (48 - 48)) * 10 + (d3.toNat - 48)) * 10 +
        (d4.toNat - 48) = 2000 + (d3.toNat - 48) * 10 + (d4.toNat - 48) := by omega
    rw [g1]
    have g2 : (2000 + (d3.toNat - 48) * 10 + (d4.toNat - 48)) / 1000 = 2 := by omega
    have g3 : (2000 + (d3.toNat - 48) * 10 + (d4.toNat - 48)) / 100 % 10 = 0 := by omega
    have g4 : (2000 + (d3.toNat - 48) * 10 + (d4.toNat - 48)) / 10 % 10 = d3.toNat - 48 := by
      omega
    have g5 : (2000 + (d3.toNat - 48) * 10 + (d4.toNat - 48)) % 10 = d4.toNat - 48 := by omega
    rw [g2, g3, g4, g5]
    have g6 : 48 + (d3.toNat - 48) = d3.toNat := by omega
    have g7 : 48 + (d4.toNat - 48) = d4.toNat := by omega
    rw [g6, g7, Char.ofNat_toNat, Char.ofNat_toNat,
        show Char.ofNat (48 + 2) = '2' from by decide,
        show Char.ofNat (48 + 0) = '0' from by decide]

/-- Claim C8, counterexample.  On candidate "1949 2015" the generic
cleaning is the identity, so the cleaned candidate contains the 4-digit
substring "2015" beginning with 20 whose value 2015 lies in
[1950, 2030]; the claimed iff then demands acceptance, yet the code
rejects the candidate (returns the empty string, field absent), because
`re.search` commits to the leftmost window "1949", whose value is below
1950. -/
theorem c8_issue_year_counterexample :
    cleanVal ("1949 2015").data .issue_year = [] ∧
    genClean ("1949 2015").data = ("1949 2015").data ∧
    (("1949 2015").data.drop 5).take 4 = "2015".data ∧
    ("2015").data.take 2 = "20".data ∧
    digitsToNat "2015".data = 2015 ∧
    1950 ≤ 2015 ∧ 2015 ≤ 2030 := by
  refine ⟨by decide, by decide, by decide, by decide, by decide, by decide, by decide⟩

/-- Claim C8, amended.  The issue_year cleaning accepts a candidate iff
the LEFTMOST 4-digit window beginning with 19 or 20 of the generically
cleaned candidate (the leftmost match of `re.search`, not an arbitrary
such substring) has value in [1950, 2030], and on acceptance it stores
exactly that leftmost window; if the leftmost window is out of range
the candidate is rejected even when a later in-range window exists. -/
theorem c8_issue_year_amended (v : List Char) :
    cleanVal v .issue_year =
      (match yearScanIdx (genClean v) with
       | some i =>
         if 1950 ≤ digitsToNat (((genClean v).drop i).take 4) ∧
             digitsToNat (((genClean v).drop i).take 4) ≤ 2030 then
           ((genClean v).drop i).take 4
         else []
       | none => []) := by
  by_cases hv : v = []
  · subst hv
    decide
  · simp only [cleanVal, if_neg hv]
    rw [reSearch_yearFind]
    cases hyi : yearScanIdx (genClean v) with
    | none => rfl
    | some i =>
      dsimp only
      obtain ⟨d1, d2, d3, d4, tail, hdrop, hcond⟩ := yearScanIdx_window (genClean v) i hyi
      have hspan : extractSpan (genClean v) i (i + 4) = [d1, d2, d3, d4] := by
        unfold extractSpan
        have e : i + 4 - i = 4 := by omega
        rw [e, hdrop]
        rfl
      have htake : ((genClean v).drop i).take 4 = [d1, d2, d3, d4] := by
        rw [hdrop]
        rfl
      rw [hspan, htake]
      by_cases hr : 1950 ≤ digitsToNat [d1, d2, d3, d4] ∧
          digitsToNat [d1, d2, d3, d4] ≤ 2030
      · rw [if_pos (by simp [hr.1, hr.2]), if_pos hr,
            natToDec_window d1 d2 d3 d4 hcond]
      · rw [if_neg (by simp only [Bool.and_eq_true, decide_eq_true_eq]; exact hr),
            if_neg hr]

end EasyAuth
